import Mathlib

/-!
Verification of the concurrent multi-file job orchestration core of the
jocall3/Githubgeminiauto repository.

The definitions below are shallow embeddings of the orchestration logic in
src/App.tsx (handleBulkAiSubmit, handleGenerateProject), the second App
variant embedded in src/components/FileExplorer.tsx
(handleMultiFileEditSubmit), and src/services/geminiService.ts
(generateCodeEditStream).  Job batches are executed by a pool of cooperative
workers that pop jobs from a shared queue; the pop together with the first
status update is a single synchronous segment of the JavaScript event loop,
so it is modelled as one atomic step of a small-step transition relation.
-/

namespace GGA

/-- The single-quote character, used to rebuild literal error strings of the
source without writing a quote character inside a string literal. -/
def squote : String := String.singleton (Char.ofNat 39)

/-- Status set of file-edit jobs (BulkEditJobStatus in src/types.ts). -/
inductive EStatus
  | queued
  | processing
  | success
  | skipped
  | failed
  deriving DecidableEq, Repr

/-- Status set of project-generation jobs (ProjectGenerationJobStatus in
src/types.ts). -/
inductive GStatus
  | queued
  | generating
  | committing
  | success
  | failed
  deriving DecidableEq, Repr

/-- BulkEditJob of src/types.ts, as created by handleBulkAiSubmit. -/
structure BulkEditJob where
  id : String
  path : String
  status : EStatus
  content : String
  errMsg : Option String
  deriving DecidableEq, Repr

/-- ProjectGenerationJob of src/types.ts. -/
structure ProjectGenerationJob where
  id : String
  path : String
  description : String
  status : GStatus
  content : String
  errMsg : Option String
  deriving DecidableEq, Repr

/-- Job creation of handleBulkAiSubmit (src/App.tsx): one job per selected
path, id and path both the full path, status queued, empty content, no
error. -/
def mkBulkJobs (selectedFilePaths : List String) : List BulkEditJob :=
  selectedFilePaths.map fun fullPath =>
    { id := fullPath, path := fullPath, status := .queued, content := "", errMsg := none }

/-- Outcome of submitting a bulk-edit instruction.  The source either
returns early (the guard on token and on an empty selection) or starts a
batch.  The validationError constructor expresses the error taxonomy of the
specification; the source never produces it, which is exactly what the
theorems about it establish. -/
inductive SubmitOutcome
  | ignored
  | validationError (msg : String)
  | started (jobs : List BulkEditJob)
  deriving DecidableEq, Repr

/-- Entry guard plus job creation of handleBulkAiSubmit (src/App.tsx):
if (!token || selectedFilePaths.size === 0) return; otherwise the batch is
started with one queued job per selected path. -/
def handleBulkAiSubmitStart (tokenPresent : Bool) (selectedFilePaths : List String) :
    SubmitOutcome :=
  if !tokenPresent || selectedFilePaths.isEmpty then .ignored
  else .started (mkBulkJobs selectedFilePaths)

/-- Whether a submit outcome is a validation error. -/
def SubmitOutcome.isValidationError : SubmitOutcome → Bool
  | .validationError _ => true
  | _ => false

/-- One entry of the AI-generated project plan (ProjectPlan in
src/types.ts). -/
structure PlanFile where
  path : String
  description : String
  deriving DecidableEq, Repr

/-- ASCII lower-casing of a character list, the semantics of
String.toLowerCase on the ASCII paths compared by the plan filter. -/
def toLowerList (cs : List Char) : List Char := cs.map Char.toLower

/-- Removal of leading and trailing whitespace from a character list, the
semantics of String.trim. -/
def trimList (cs : List Char) : List Char :=
  ((cs.dropWhile Char.isWhitespace).reverse.dropWhile Char.isWhitespace).reverse

/-- The path normalisation used by the plan filter of handleGenerateProject
(src/App.tsx): file.path.toLowerCase().trim(), over the character data so
that it evaluates structurally. -/
def normalizePlanPath (p : String) : String := String.mk (trimList (toLowerList p.toList))

/-- The plan filter of handleGenerateProject (src/App.tsx): entries whose
normalised path is readme.md or .gitignore are removed before jobs are
created. -/
def filesToGenerate (planFiles : List PlanFile) : List PlanFile :=
  planFiles.filter fun file =>
    !(normalizePlanPath file.path == "readme.md") &&
      !(normalizePlanPath file.path == ".gitignore")

/-- Job creation of handleGenerateProject (src/App.tsx): one queued job per
plan entry, id the file path. -/
def mkProjectJobs (planFiles : List PlanFile) : List ProjectGenerationJob :=
  planFiles.map fun file =>
    { id := file.path, path := file.path, description := file.description,
      status := .queued, content := "", errMsg := none }

/-- initialJobs of handleGenerateProject (src/App.tsx): jobs of the filtered
plan. -/
def handleGenerateProjectInitialJobs (planFiles : List PlanFile) : List ProjectGenerationJob :=
  mkProjectJobs (filesToGenerate planFiles)

/-- repoName.replace of the trailing dash-and-digits pattern by the empty
string, from the retry loop of handleGenerateProject (src/App.tsx).  The
pattern requires at least one digit at the end of the name, directly
preceded by a dash. -/
def stripNumericSuffix (name : String) : String :=
  let rev := name.toList.reverse
  let digits := rev.takeWhile Char.isDigit
  let rest := rev.drop digits.length
  match digits, rest with
  | [], _ => name
  | _ :: _, c :: rs => if c = '-' then String.mk rs.reverse else name
  | _ :: _, [] => name

/-- Response of the remote store to one createRepo call: success, a 422
name-conflict rejection, or any other error. -/
inductive StoreResp
  | ok
  | conflict422
  | failOther (msg : String)
  deriving DecidableEq, Repr

/-- Outcome of the repository-creation retry loop. -/
inductive CreateOutcome
  | created (name : String)
  | exhausted (msg : String)
  | otherError (msg : String)
  deriving DecidableEq, Repr

/-- Math.floor(100 + Math.random() * 900) of the source: a number in
100..999 derived from one draw of entropy. -/
def randomSuffix (r : Nat) : Nat := 100 + r % 900

/-- maxAttempts of the retry loop in handleGenerateProject. -/
def maxAttempts : Nat := 5

/-- The error message raised in handleGenerateProject when the retry loop
ends without a created repository.  It interpolates the originally
requested name. -/
def exhaustedMessage (repoName : String) : String :=
  "Failed to create repository " ++ squote ++ repoName ++ squote ++ " after " ++
    toString maxAttempts ++ " attempts. The name may be taken."

/-- The while loop of handleGenerateProject (src/App.tsx).  The loop runs
while not created and attempts is below maxAttempts; fuel is
maxAttempts minus attempts.  A 422 response increments attempts and derives
the next candidate by stripping any numeric suffix from the ORIGINAL
requested name and appending a dash and a fresh 3-digit suffix; any other
error is rethrown.  Besides the outcome, the list of candidate names
actually sent to the store is returned, in order. -/
def createRepoGo (store : String → StoreResp) (entropy : Nat → Nat) (repoName : String) :
    Nat → String → Nat → CreateOutcome × List String
  | 0, _, _ => (.exhausted (exhaustedMessage repoName), [])
  | fuel + 1, cand, draw =>
    match store cand with
    | .ok => (.created cand, [cand])
    | .failOther msg => (.otherError msg, [cand])
    | .conflict422 =>
      let next := stripNumericSuffix repoName ++ "-" ++ toString (randomSuffix (entropy draw))
      let r := createRepoGo store entropy repoName fuel next (draw + 1)
      (r.1, cand :: r.2)

/-- Repository creation with the collision-retry loop of
handleGenerateProject, started on the requested name with zero attempts
used. -/
def createRepoWithRetry (store : String → StoreResp) (entropy : Nat → Nat)
    (repoName : String) : CreateOutcome × List String :=
  createRepoGo store entropy repoName maxAttempts repoName 0

/-- Per-job observable events: a stream chunk delivered to the chunk
callback, and a commitFile call carrying the content written. -/
inductive JobEvent
  | chunk (text : String)
  | commitCall (content : String)
  deriving DecidableEq, Repr

/-- generateCodeEditStream (src/services/geminiService.ts) together with the
handleChunk callback of the per-job processors: the stream is consumed to
exhaustion; each chunk whose text is nonempty is handed to the callback,
which appends it to the accumulated content.  Returns the final accumulated
content and the chunk events in arrival order. -/
def consumeStream : List String → String → String × List JobEvent
  | [], acc => (acc, [])
  | c :: cs, acc =>
    if c = "" then consumeStream cs acc
    else
      let r := consumeStream cs (acc ++ c)
      (r.1, .chunk c :: r.2)

/-- processJob of handleBulkAiSubmit (src/App.tsx, lines 639 to 655): the
stream is consumed to exhaustion, then commitFile is called with the fully
accumulated content, then the job status becomes success.  There is no
comparison against the pre-existing content and no skip path. -/
def processJobRun (chunks : List String) : EStatus × List JobEvent :=
  (.success, (consumeStream chunks ("")).2 ++ [.commitCall (consumeStream chunks ("")).1])

/-- processFile of handleMultiFileEditSubmit (src/components/FileExplorer.tsx,
lines 592 to 603): after the stream is exhausted, if the accumulated content
trimmed equals the pre-existing content trimmed, or is empty after trimming,
the job becomes skipped and no commit is issued; otherwise the accumulated
content is committed and the job becomes success. -/
def processFileRun (originalContent : String) (chunks : List String) :
    EStatus × List JobEvent :=
  if (consumeStream chunks ("")).1.trim = originalContent.trim ∨
      (consumeStream chunks ("")).1.trim = "" then
    (.skipped, (consumeStream chunks ("")).2)
  else
    (.success, (consumeStream chunks ("")).2 ++ [.commitCall (consumeStream chunks ("")).1])

/-- CONCURRENCY_LIMIT of handleBulkAiSubmit, handleGenerateProject and
handleMultiFileEditSubmit: the number of workers spawned by
Promise.all(Array(CONCURRENCY_LIMIT).fill(null).map(worker)). -/
def CONCURRENCY_LIMIT : Nat := 5

/-- State of one logical worker: about to test the shared queue, processing
a claimed job, or returned because it observed an empty queue. -/
inductive WStatus (n : Nat)
  | idle
  | busy (j : Fin n)
  | done
  deriving DecidableEq

/-- Global state of a batch of n file-edit jobs executed by W workers: the
shared task queue (job indices still unclaimed, front first), the per-job
status and error fields of the React job list, and the worker states.
Jobs are indexed by their position in initialJobs, which is the submission
order. -/
structure EState (W n : Nat) where
  queue : List (Fin n)
  status : Fin n → EStatus
  errMsg : Fin n → Option String
  workers : Fin W → WStatus n
  deriving DecidableEq

/-- Launch state of a batch: every job queued with no error, the queue a
copy of the job list in submission order, every worker about to run. -/
def initES (W n : Nat) : EState W n :=
  { queue := List.finRange n
    status := fun _ => .queued
    errMsg := fun _ => none
    workers := fun _ => .idle }

/-- Small-step transition relation of the edit-flow worker pool
(handleBulkAiSubmit in src/App.tsx and handleMultiFileEditSubmit in
src/components/FileExplorer.tsx).  Each constructor is one synchronous
segment of the single-threaded event loop:

* claim: taskQueue.length > 0 observed, taskQueue.shift() performed and the
  job status set to processing, all before the next suspension point.
* claimFail: the early-failure path of processJob that runs before the
  status is set to processing (the branch could not be determined); the job
  moves from queued directly to failed and the worker loops on.
* finishOk, finishSkip, finishFail: the awaited per-job operation resolves
  and its final status update runs; on failure the catch records the error
  message on the job.  The worker returns to the top of its while loop.
* terminate: the worker observes an empty queue and returns. -/
inductive EStep (W n : Nat) : EState W n → EState W n → Prop
  | claim (s : EState W n) (w : Fin W) (j : Fin n) (rest : List (Fin n)) :
      s.workers w = .idle →
      s.queue = j :: rest →
      EStep W n s { queue := rest
                    status := Function.update s.status j .processing
                    errMsg := s.errMsg
                    workers := Function.update s.workers w (.busy j) }
  | claimFail (s : EState W n) (w : Fin W) (j : Fin n) (rest : List (Fin n)) (msg : String) :
      s.workers w = .idle →
      s.queue = j :: rest →
      EStep W n s { queue := rest
                    status := Function.update s.status j .failed
                    errMsg := Function.update s.errMsg j (some msg)
                    workers := s.workers }
  | finishOk (s : EState W n) (w : Fin W) (j : Fin n) :
      s.workers w = .busy j →
      EStep W n s { queue := s.queue
                    status := Function.update s.status j .success
                    errMsg := s.errMsg
                    workers := Function.update s.workers w .idle }
  | finishSkip (s : EState W n) (w : Fin W) (j : Fin n) :
      s.workers w = .busy j →
      EStep W n s { queue := s.queue
                    status := Function.update s.status j .skipped
                    errMsg := s.errMsg
                    workers := Function.update s.workers w .idle }
  | finishFail (s : EState W n) (w : Fin W) (j : Fin n) (msg : String) :
      s.workers w = .busy j →
      EStep W n s { queue := s.queue
                    status := Function.update s.status j .failed
                    errMsg := Function.update s.errMsg j (some msg)
                    workers := Function.update s.workers w .idle }
  | terminate (s : EState W n) (w : Fin W) :
      s.workers w = .idle →
      s.queue = [] →
      EStep W n s { queue := s.queue
                    status := s.status
                    errMsg := s.errMsg
                    workers := Function.update s.workers w .done }

/-- States reachable from the launch state of an edit batch. -/
inductive EReach (W n : Nat) : EState W n → Prop
  | init : EReach W n (initES W n)
  | step {s t : EState W n} : EReach W n s → EStep W n s t → EReach W n t

/-- Zero or more edit-flow steps. -/
inductive ESteps (W n : Nat) : EState W n → EState W n → Prop
  | refl (s : EState W n) : ESteps W n s s
  | tail {s t u : EState W n} : ESteps W n s t → EStep W n t u → ESteps W n s u

/-- Terminal statuses of a file-edit job. -/
def EStatus.isTerminal : EStatus → Bool
  | .success => true
  | .skipped => true
  | .failed => true
  | _ => false

/-- Position of a status in the forward state list of file-edit jobs:
queued, then processing, then the terminal states. -/
def erank : EStatus → Nat
  | .queued => 0
  | .processing => 1
  | .success => 2
  | .skipped => 2
  | .failed => 2

/-- The batch-complete predicate of the BulkEditProgress call site in
src/App.tsx: no job has status queued or processing. -/
def bulkIsComplete {W n : Nat} (s : EState W n) : Bool :=
  !((List.finRange n).any fun j => s.status j == .queued || s.status j == .processing)

/-- All spawned workers have returned: the scheduler Promise.all has
resolved. -/
def allDoneE {W n : Nat} (s : EState W n) : Prop :=
  ∀ w : Fin W, s.workers w = .done

/-- Weight of a worker that still has work to do. -/
def wWeight {n : Nat} : WStatus n → Nat
  | .done => 0
  | _ => 1

/-- Weight of a job by remaining lifecycle stages in the edit flow. -/
def eWeight : EStatus → Nat
  | .queued => 2
  | .processing => 1
  | _ => 0

/-- Termination measure of the edit-flow scheduler: every step strictly
decreases it. -/
def measE {W n : Nat} (s : EState W n) : Nat :=
  (∑ j : Fin n, eWeight (s.status j)) + (∑ w : Fin W, wWeight (s.workers w))

/-- Global state of a batch of n project-generation jobs executed by W
workers (handleGenerateProject in src/App.tsx). -/
structure GState (W n : Nat) where
  queue : List (Fin n)
  status : Fin n → GStatus
  errMsg : Fin n → Option String
  workers : Fin W → WStatus n
  deriving DecidableEq

/-- Launch state of a project-generation batch. -/
def initGS (W n : Nat) : GState W n :=
  { queue := List.finRange n
    status := fun _ => .queued
    errMsg := fun _ => none
    workers := fun _ => .idle }

/-- Small-step transition relation of the project-generation worker pool
(handleGenerateProject in src/App.tsx):

* claim: atomic pop of the queue and status update to generating.
* beginCommit: generateFileContent resolved, status set to committing
  before commitFile is awaited.
* finishOk: commitFile resolved, status set to success, worker loops.
* finishFail: the try block around processFile in the worker catches a
  rejection thrown during either the generating or the committing phase and
  records the message; the worker loops on.
* terminate: the worker observes an empty queue and returns. -/
inductive GStep (W n : Nat) : GState W n → GState W n → Prop
  | claim (s : GState W n) (w : Fin W) (j : Fin n) (rest : List (Fin n)) :
      s.workers w = .idle →
      s.queue = j :: rest →
      GStep W n s { queue := rest
                    status := Function.update s.status j .generating
                    errMsg := s.errMsg
                    workers := Function.update s.workers w (.busy j) }
  | beginCommit (s : GState W n) (w : Fin W) (j : Fin n) :
      s.workers w = .busy j →
      s.status j = .generating →
      GStep W n s { queue := s.queue
                    status := Function.update s.status j .committing
                    errMsg := s.errMsg
                    workers := s.workers }
  | finishOk (s : GState W n) (w : Fin W) (j : Fin n) :
      s.workers w = .busy j →
      s.status j = .committing →
      GStep W n s { queue := s.queue
                    status := Function.update s.status j .success
                    errMsg := s.errMsg
                    workers := Function.update s.workers w .idle }
  | finishFail (s : GState W n) (w : Fin W) (j : Fin n) (msg : String) :
      s.workers w = .busy j →
      GStep W n s { queue := s.queue
                    status := Function.update s.status j .failed
                    errMsg := Function.update s.errMsg j (some msg)
                    workers := Function.update s.workers w .idle }
  | terminate (s : GState W n) (w : Fin W) :
      s.workers w = .idle →
      s.queue = [] →
      GStep W n s { queue := s.queue
                    status := s.status
                    errMsg := s.errMsg
                    workers := Function.update s.workers w .done }

/-- States reachable from the launch state of a generation batch. -/
inductive GReach (W n : Nat) : GState W n → Prop
  | init : GReach W n (initGS W n)
  | step {s t : GState W n} : GReach W n s → GStep W n s t → GReach W n t

/-- Zero or more generation-flow steps. -/
inductive GSteps (W n : Nat) : GState W n → GState W n → Prop
  | refl (s : GState W n) : GSteps W n s s
  | tail {s t u : GState W n} : GSteps W n s t → GStep W n t u → GSteps W n s u

/-- Terminal statuses of a project-generation job. -/
def GStatus.isTerminal : GStatus → Bool
  | .success => true
  | .failed => true
  | _ => false

/-- In-flight statuses of a project-generation job. -/
def GStatus.isInFlight : GStatus → Bool
  | .generating => true
  | .committing => true
  | _ => false

/-- Position of a status in the forward state list of project-generation
jobs: queued, generating, committing, then the terminal states. -/
def grank : GStatus → Nat
  | .queued => 0
  | .generating => 1
  | .committing => 2
  | .success => 3
  | .failed => 3

/-- The batch-complete predicate of the ProjectGenerationProgress call site
in src/App.tsx: no job has status queued, generating or committing. -/
def projectIsComplete {W n : Nat} (s : GState W n) : Bool :=
  !((List.finRange n).any fun j =>
      s.status j == .queued || s.status j == .generating || s.status j == .committing)

/-- All spawned workers of a generation batch have returned. -/
def allDoneG {W n : Nat} (s : GState W n) : Prop :=
  ∀ w : Fin W, s.workers w = .done

/-- Inductive invariant of the edit-flow scheduler.  The queue is always a
final segment of the submission order (jobs are claimed front to back); a
job is queued exactly while it sits in the queue; a busy worker holds a job
in processing state; no two workers hold the same job; every processing job
is held by some worker; the error field is set exactly on the failed
status; once any worker has returned the queue is empty. -/
structure EInv (W n : Nat) (s : EState W n) : Prop where
  queueSuffix : ∃ k, s.queue = (List.finRange n).drop k
  queuedIffInQueue : ∀ j : Fin n, s.status j = .queued ↔ j ∈ s.queue
  busyStatus : ∀ (w : Fin W) (j : Fin n), s.workers w = .busy j → s.status j = .processing
  busyUnique : ∀ (w₁ w₂ : Fin W) (j : Fin n),
      s.workers w₁ = .busy j → s.workers w₂ = .busy j → w₁ = w₂
  processingBusy : ∀ j : Fin n, s.status j = .processing → ∃ w : Fin W, s.workers w = .busy j
  errIffFailed : ∀ j : Fin n, (s.errMsg j).isSome ↔ s.status j = .failed
  doneQueueEmpty : ∀ w : Fin W, s.workers w = .done → s.queue = []

/-- Inductive invariant of the generation-flow scheduler, the analogue of
the edit-flow invariant with the two visible in-flight phases. -/
structure GInv (W n : Nat) (s : GState W n) : Prop where
  queueSuffix : ∃ k, s.queue = (List.finRange n).drop k
  queuedIffInQueue : ∀ j : Fin n, s.status j = .queued ↔ j ∈ s.queue
  busyStatus : ∀ (w : Fin W) (j : Fin n), s.workers w = .busy j →
      s.status j = .generating ∨ s.status j = .committing
  busyUnique : ∀ (w₁ w₂ : Fin W) (j : Fin n),
      s.workers w₁ = .busy j → s.workers w₂ = .busy j → w₁ = w₂
  inFlightBusy : ∀ j : Fin n, (s.status j).isInFlight = true → ∃ w : Fin W, s.workers w = .busy j
  errIffFailed : ∀ j : Fin n, (s.errMsg j).isSome ↔ s.status j = .failed
  doneQueueEmpty : ∀ w : Fin W, s.workers w = .done → s.queue = []

/-- The state produced by the catch branch of a worker when the per-job
operation of job j rejects with msg while worker w holds j: the job is
failed with the message recorded and the worker returns to the top of its
loop. -/
def failTargetE {W n : Nat} (s : EState W n) (w : Fin W) (j : Fin n) (msg : String) :
    EState W n :=
  { queue := s.queue
    status := Function.update s.status j .failed
    errMsg := Function.update s.errMsg j (some msg)
    workers := Function.update s.workers w .idle }

/-- The state produced by the catch in the handleGenerateProject worker when
processFile for job j rejects with msg while worker w holds j: the job is
failed with the message recorded and the worker returns to the top of its
loop. -/
def failTargetG {W n : Nat} (s : GState W n) (w : Fin W) (j : Fin n) (msg : String) :
    GState W n :=
  { queue := s.queue
    status := Function.update s.status j .failed
    errMsg := Function.update s.errMsg j (some msg)
    workers := Function.update s.workers w .idle }

/-- Weight of a generation job by remaining lifecycle stages. -/
def gWeight : GStatus → Nat
  | .queued => 3
  | .generating => 2
  | .committing => 1
  | _ => 0

/-- Termination measure of the generation-flow scheduler: every step
strictly decreases it. -/
def measG {W n : Nat} (s : GState W n) : Nat :=
  (∑ j : Fin n, gWeight (s.status j)) + (∑ w : Fin W, wWeight (s.workers w))

/-- Number of jobs of an edit batch currently in the processing status. -/
def eProcessingCount {W n : Nat} (s : EState W n) : Nat :=
  ((Finset.univ : Finset (Fin n)).filter fun j => s.status j = .processing).card

/-- Number of jobs of an edit batch in a terminal status. -/
def eTerminalCount {W n : Nat} (s : EState W n) : Nat :=
  ((Finset.univ : Finset (Fin n)).filter fun j => (s.status j).isTerminal = true).card

/-- Number of jobs of a generation batch currently generating or
committing. -/
def gInFlightCount {W n : Nat} (s : GState W n) : Nat :=
  ((Finset.univ : Finset (Fin n)).filter fun j => (s.status j).isInFlight = true).card

/-- Whether one character list starts with another. -/
def startsWithList : List Char → List Char → Bool
  | _, [] => true
  | [], _ :: _ => false
  | h :: t, nh :: nt => h = nh && startsWithList t nt

/-- Whether needle occurs as a contiguous sublist of hay. -/
def occursList (needle : List Char) : List Char → Bool
  | [] => needle.isEmpty
  | h :: t => startsWithList (h :: t) needle || occursList needle t

/-- Whether needle occurs as a substring of hay, over the character data. -/
def mentions (hay needle : String) : Bool :=
  occursList needle.toList hay.toList

/-- Demonstration state of a 1-job edit batch right after the single job was
claimed by worker 0: the claim target of the first step from the launch
state. -/
def c1DemoState : EState CONCURRENCY_LIMIT 1 :=
  { queue := []
    status := fun _ => .processing
    errMsg := fun _ => none
    workers := fun w => if w.val = 0 then .busy ⟨0, by decide⟩ else .idle }

/-- Demonstration state of a 1-job edit batch whose job succeeded and whose
workers are all back at the queue check. -/
def c2Mid : EState CONCURRENCY_LIMIT 1 :=
  { queue := []
    status := fun _ => .success
    errMsg := fun _ => none
    workers := fun _ => .idle }

/-- Demonstration states of a 1-job edit batch while the five workers
observe the empty queue and return one after the other. -/
def c2DoneUpTo (k : Nat) : EState CONCURRENCY_LIMIT 1 :=
  { queue := []
    status := fun _ => .success
    errMsg := fun _ => none
    workers := fun w => if w.val < k then .done else .idle }

/-- Demonstration state of a fully completed 1-job edit batch. -/
def c2FinalDemo : EState CONCURRENCY_LIMIT 1 :=
  { queue := []
    status := fun _ => .success
    errMsg := fun _ => none
    workers := fun _ => .done }

/-- Demonstration state of a 2-job edit batch after worker 0 claimed job 0. -/
def c4Mid1 : EState CONCURRENCY_LIMIT 2 :=
  { queue := [⟨1, by decide⟩]
    status := fun j => if j.val = 0 then .processing else .queued
    errMsg := fun _ => none
    workers := fun w => if w.val = 0 then .busy ⟨0, by decide⟩ else .idle }

/-- Demonstration state of a 2-job edit batch after worker 0 claimed job 0
and worker 1 claimed job 1. -/
def c4Mid2 : EState CONCURRENCY_LIMIT 2 :=
  { queue := []
    status := fun _ => .processing
    errMsg := fun _ => none
    workers := fun w =>
      if w.val = 0 then .busy ⟨0, by decide⟩
      else if w.val = 1 then .busy ⟨1, by decide⟩ else .idle }

/-- Demonstration state of a 2-job edit batch where job 0 completed before
job 1: both jobs claimed, worker 0 finished job 0 first. -/
def c4StateA : EState CONCURRENCY_LIMIT 2 :=
  { queue := []
    status := fun j => if j.val = 0 then .success else .processing
    errMsg := fun _ => none
    workers := fun w => if w.val = 1 then .busy ⟨1, by decide⟩ else .idle }

/-- Demonstration state of a 2-job edit batch where job 1 completed before
job 0: both jobs claimed, worker 1 finished job 1 first. -/
def c4StateB : EState CONCURRENCY_LIMIT 2 :=
  { queue := []
    status := fun j => if j.val = 0 then .processing else .success
    errMsg := fun _ => none
    workers := fun w => if w.val = 0 then .busy ⟨0, by decide⟩ else .idle }

/-- Demonstration state of a 1-job generation batch right after the single
job was claimed by worker 0. -/
def gDemoState : GState CONCURRENCY_LIMIT 1 :=
  { queue := []
    status := fun _ => .generating
    errMsg := fun _ => none
    workers := fun w => if w.val = 0 then .busy ⟨0, by decide⟩ else .idle }

theorem finRange_drop_tail {n k : Nat} {j : Fin n} {rest : List (Fin n)}
    (h : (List.finRange n).drop k = j :: rest) :
    (List.finRange n).drop (k + 1) = rest := by
  rw [← List.tail_drop, h, List.tail_cons]

theorem finRange_drop_nodup (n k : Nat) : ((List.finRange n).drop k).Nodup :=
  List.Nodup.sublist (List.drop_sublist k (List.finRange n)) (List.nodup_finRange n)

theorem einv_init (W n : Nat) : EInv W n (initES W n) := by
  refine ⟨⟨0, rfl⟩, ?_, ?_, ?_, ?_, ?_, ?_⟩
  · intro j; simp [initES, List.mem_finRange]
  · intro w j h; simp [initES] at h
  · intro w₁ w₂ j h₁ h₂; simp [initES] at h₁
  · intro j h; simp [initES] at h
  · intro j; simp [initES]
  · intro w h; simp [initES] at h

theorem einv_step {W n : Nat} {s t : EState W n} (inv : EInv W n s) (h : EStep W n s t) :
    EInv W n t := by
  cases h with
  | claim w j rest hidle hq =>
    obtain ⟨k, hk⟩ := inv.queueSuffix
    have hdrop : (List.finRange n).drop k = j :: rest := by rw [← hk, hq]
    have hjq : s.status j = .queued :=
      (inv.queuedIffInQueue j).2 (by rw [hq]; exact List.mem_cons_self _ _)
    have hnodup : (j :: rest).Nodup := by rw [← hq, hk]; exact finRange_drop_nodup n k
    have hjrest : j ∉ rest := (List.nodup_cons.1 hnodup).1
    refine ⟨⟨k + 1, (finRange_drop_tail hdrop).symm⟩, ?_, ?_, ?_, ?_, ?_, ?_⟩
    · intro i
      dsimp only
      by_cases hij : i = j
      · subst hij
        rw [Function.update_same]
        constructor
        · intro hco; exact absurd hco (by decide)
        · intro hmem; exact absurd hmem hjrest
      · rw [Function.update_noteq hij]
        rw [inv.queuedIffInQueue i, hq]
        simp [List.mem_cons, hij]
    · intro w' j' hw'
      dsimp only at hw' ⊢
      by_cases hww : w' = w
      · subst hww
        rw [Function.update_same] at hw'
        injection hw' with hj
        subst hj
        rw [Function.update_same]
      · rw [Function.update_noteq hww] at hw'
        have hps := inv.busyStatus w' j' hw'
        have hjj : j' ≠ j := by
          intro hji; subst hji; rw [hjq] at hps; exact absurd hps (by decide)
        rw [Function.update_noteq hjj]
        exact hps
    · intro w₁ w₂ j' h₁ h₂
      dsimp only at h₁ h₂
      by_cases hw₁ : w₁ = w
      · by_cases hw₂ : w₂ = w
        · rw [hw₁, hw₂]
        · subst hw₁
          rw [Function.update_same] at h₁
          injection h₁ with hj
          rw [Function.update_noteq hw₂] at h₂
          have hps := inv.busyStatus w₂ j' h₂
          rw [← hj, hjq] at hps
          exact absurd hps (by decide)
      · by_cases hw₂ : w₂ = w
        · subst hw₂
          rw [Function.update_same] at h₂
          injection h₂ with hj
          rw [Function.update_noteq hw₁] at h₁
          have hps := inv.busyStatus w₁ j' h₁
          rw [← hj, hjq] at hps
          exact absurd hps (by decide)
        · rw [Function.update_noteq hw₁] at h₁
          rw [Function.update_noteq hw₂] at h₂
          exact inv.busyUnique w₁ w₂ j' h₁ h₂
    · intro i hi
      dsimp only at hi ⊢
      by_cases hij : i = j
      · subst hij
        exact ⟨w, by rw [Function.update_same]⟩
      · rw [Function.update_noteq hij] at hi
        obtain ⟨w', hw'⟩ := inv.processingBusy i hi
        have hww : w' ≠ w := by
          intro hwe; subst hwe; rw [hidle] at hw'; simp at hw'
        exact ⟨w', by rw [Function.update_noteq hww]; exact hw'⟩
    · intro i
      dsimp only
      by_cases hij : i = j
      · subst hij
        rw [Function.update_same]
        constructor
        · intro hsome
          have hfail := (inv.errIffFailed i).1 hsome
          rw [hjq] at hfail
          exact absurd hfail (by decide)
        · intro hco; exact absurd hco (by decide)
      · rw [Function.update_noteq hij]
        exact inv.errIffFailed i
    · intro w' hw'
      dsimp only at hw' ⊢
      by_cases hww : w' = w
      · subst hww; rw [Function.update_same] at hw'; simp at hw'
      · rw [Function.update_noteq hww] at hw'
        have hqe := inv.doneQueueEmpty w' hw'
        rw [hq] at hqe
        simp at hqe
  | claimFail w j rest msg hidle hq =>
    obtain ⟨k, hk⟩ := inv.queueSuffix
    have hdrop : (List.finRange n).drop k = j :: rest := by rw [← hk, hq]
    have hjq : s.status j = .queued :=
      (inv.queuedIffInQueue j).2 (by rw [hq]; exact List.mem_cons_self _ _)
    have hnodup : (j :: rest).Nodup := by rw [← hq, hk]; exact finRange_drop_nodup n k
    have hjrest : j ∉ rest := (List.nodup_cons.1 hnodup).1
    refine ⟨⟨k + 1, (finRange_drop_tail hdrop).symm⟩, ?_, ?_, ?_, ?_, ?_, ?_⟩
    · intro i
      dsimp only
      by_cases hij : i = j
      · subst hij
        rw [Function.update_same]
        constructor
        · intro hco; exact absurd hco (by decide)
        · intro hmem; exact absurd hmem hjrest
      · rw [Function.update_noteq hij]
        rw [inv.queuedIffInQueue i, hq]
        simp [List.mem_cons, hij]
    · intro w' j' hw'
      dsimp only at hw' ⊢
      have hps := inv.busyStatus w' j' hw'
      have hjj : j' ≠ j := by
        intro hji; subst hji; rw [hjq] at hps; exact absurd hps (by decide)
      rw [Function.update_noteq hjj]
      exact hps
    · intro w₁ w₂ j' h₁ h₂
      exact inv.busyUnique w₁ w₂ j' h₁ h₂
    · intro i hi
      dsimp only at hi ⊢
      by_cases hij : i = j
      · subst hij; rw [Function.update_same] at hi; exact absurd hi (by decide)
      · rw [Function.update_noteq hij] at hi
        exact inv.processingBusy i hi
    · intro i
      dsimp only
      by_cases hij : i = j
      · subst hij
        rw [Function.update_same, Function.update_same]
        simp
      · rw [Function.update_noteq hij, Function.update_noteq hij]
        exact inv.errIffFailed i
    · intro w' hw'
      dsimp only at hw' ⊢
      have hqe := inv.doneQueueEmpty w' hw'
      rw [hq] at hqe
      simp at hqe
  | finishOk w j hbusy =>
    have hps : s.status j = .processing := inv.busyStatus w j hbusy
    refine ⟨inv.queueSuffix, ?_, ?_, ?_, ?_, ?_, ?_⟩
    · intro i
      dsimp only
      by_cases hij : i = j
      · subst hij
        rw [Function.update_same]
        constructor
        · intro hco; exact absurd hco (by decide)
        · intro hmem
          have := (inv.queuedIffInQueue i).2 hmem
          rw [this] at hps; exact absurd hps (by decide)
      · rw [Function.update_noteq hij]
        exact inv.queuedIffInQueue i
    · intro w' j' hw'
      dsimp only at hw' ⊢
      by_cases hww : w' = w
      · subst hww; rw [Function.update_same] at hw'; simp at hw'
      · rw [Function.update_noteq hww] at hw'
        have hps' := inv.busyStatus w' j' hw'
        have hjj : j' ≠ j := by
          intro hji; subst hji
          exact hww (inv.busyUnique w' w j' hw' hbusy)
        rw [Function.update_noteq hjj]
        exact hps'
    · intro w₁ w₂ j' h₁ h₂
      dsimp only at h₁ h₂
      by_cases hw₁ : w₁ = w
      · subst hw₁; rw [Function.update_same] at h₁; simp at h₁
      · by_cases hw₂ : w₂ = w
        · subst hw₂; rw [Function.update_same] at h₂; simp at h₂
        · rw [Function.update_noteq hw₁] at h₁
          rw [Function.update_noteq hw₂] at h₂
          exact inv.busyUnique w₁ w₂ j' h₁ h₂
    · intro i hi
      dsimp only at hi ⊢
      by_cases hij : i = j
      · subst hij; rw [Function.update_same] at hi; exact absurd hi (by decide)
      · rw [Function.update_noteq hij] at hi
        obtain ⟨w', hw'⟩ := inv.processingBusy i hi
        have hww : w' ≠ w := by
          intro hwe; subst hwe
          rw [hbusy] at hw'
          injection hw' with hji
          exact hij hji.symm
        exact ⟨w', by rw [Function.update_noteq hww]; exact hw'⟩
    · intro i
      dsimp only
      by_cases hij : i = j
      · subst hij
        rw [Function.update_same]
        constructor
        · intro hsome
          have hfail := (inv.errIffFailed i).1 hsome
          rw [hfail] at hps; exact absurd hps (by decide)
        · intro hco; exact absurd hco (by decide)
      · rw [Function.update_noteq hij]
        exact inv.errIffFailed i
    · intro w' hw'
      dsimp only at hw' ⊢
      by_cases hww : w' = w
      · subst hww; rw [Function.update_same] at hw'; simp at hw'
      · rw [Function.update_noteq hww] at hw'
        exact inv.doneQueueEmpty w' hw'
  | finishSkip w j hbusy =>
    have hps : s.status j = .processing := inv.busyStatus w j hbusy
    refine ⟨inv.queueSuffix, ?_, ?_, ?_, ?_, ?_, ?_⟩
    · intro i
      dsimp only
      by_cases hij : i = j
      · subst hij
        rw [Function.update_same]
        constructor
        · intro hco; exact absurd hco (by decide)
        · intro hmem
          have := (inv.queuedIffInQueue i).2 hmem
          rw [this] at hps; exact absurd hps (by decide)
      · rw [Function.update_noteq hij]
        exact inv.queuedIffInQueue i
    · intro w' j' hw'
      dsimp only at hw' ⊢
      by_cases hww : w' = w
      · subst hww; rw [Function.update_same] at hw'; simp at hw'
      · rw [Function.update_noteq hww] at hw'
        have hps' := inv.busyStatus w' j' hw'
        have hjj : j' ≠ j := by
          intro hji; subst hji
          exact hww (inv.busyUnique w' w j' hw' hbusy)
        rw [Function.update_noteq hjj]
        exact hps'
    · intro w₁ w₂ j' h₁ h₂
      dsimp only at h₁ h₂
      by_cases hw₁ : w₁ = w
      · subst hw₁; rw [Function.update_same] at h₁; simp at h₁
      · by_cases hw₂ : w₂ = w
        · subst hw₂; rw [Function.update_same] at h₂; simp at h₂
        · rw [Function.update_noteq hw₁] at h₁
          rw [Function.update_noteq hw₂] at h₂
          exact inv.busyUnique w₁ w₂ j' h₁ h₂
    · intro i hi
      dsimp only at hi ⊢
      by_cases hij : i = j
      · subst hij; rw [Function.update_same] at hi; exact absurd hi (by decide)
      · rw [Function.update_noteq hij] at hi
        obtain ⟨w', hw'⟩ := inv.processingBusy i hi
        have hww : w' ≠ w := by
          intro hwe; subst hwe
          rw [hbusy] at hw'
          injection hw' with hji
          exact hij hji.symm
        exact ⟨w', by rw [Function.update_noteq hww]; exact hw'⟩
    · intro i
      dsimp only
      by_cases hij : i = j
      · subst hij
        rw [Function.update_same]
        constructor
        · intro hsome
          have hfail := (inv.errIffFailed i).1 hsome
          rw [hfail] at hps; exact absurd hps (by decide)
        · intro hco; exact absurd hco (by decide)
      · rw [Function.update_noteq hij]
        exact inv.errIffFailed i
    · intro w' hw'
      dsimp only at hw' ⊢
      by_cases hww : w' = w
      · subst hww; rw [Function.update_same] at hw'; simp at hw'
      · rw [Function.update_noteq hww] at hw'
        exact inv.doneQueueEmpty w' hw'
  | finishFail w j msg hbusy =>
    have hps : s.status j = .processing := inv.busyStatus w j hbusy
    refine ⟨inv.queueSuffix, ?_, ?_, ?_, ?_, ?_, ?_⟩
    · intro i
      dsimp only
      by_cases hij : i = j
      · subst hij
        rw [Function.update_same]
        constructor
        · intro hco; exact absurd hco (by decide)
        · intro hmem
          have := (inv.queuedIffInQueue i).2 hmem
          rw [this] at hps; exact absurd hps (by decide)
      · rw [Function.update_noteq hij]
        exact inv.queuedIffInQueue i
    · intro w' j' hw'
      dsimp only at hw' ⊢
      by_cases hww : w' = w
      · subst hww; rw [Function.update_same] at hw'; simp at hw'
      · rw [Function.update_noteq hww] at hw'
        have hps' := inv.busyStatus w' j' hw'
        have hjj : j' ≠ j := by
          intro hji; subst hji
          exact hww (inv.busyUnique w' w j' hw' hbusy)
        rw [Function.update_noteq hjj]
        exact hps'
    · intro w₁ w₂ j' h₁ h₂
      dsimp only at h₁ h₂
      by_cases hw₁ : w₁ = w
      · subst hw₁; rw [Function.update_same] at h₁; simp at h₁
      · by_cases hw₂ : w₂ = w
        · subst hw₂; rw [Function.update_same] at h₂; simp at h₂
        · rw [Function.update_noteq hw₁] at h₁
          rw [Function.update_noteq hw₂] at h₂
          exact inv.busyUnique w₁ w₂ j' h₁ h₂
    · intro i hi
      dsimp only at hi ⊢
      by_cases hij : i = j
      · subst hij; rw [Function.update_same] at hi; exact absurd hi (by decide)
      · rw [Function.update_noteq hij] at hi
        obtain ⟨w', hw'⟩ := inv.processingBusy i hi
        have hww : w' ≠ w := by
          intro hwe; subst hwe
          rw [hbusy] at hw'
          injection hw' with hji
          exact hij hji.symm
        exact ⟨w', by rw [Function.update_noteq hww]; exact hw'⟩
    · intro i
      dsimp only
      by_cases hij : i = j
      · subst hij
        rw [Function.update_same, Function.update_same]
        simp
      · rw [Function.update_noteq hij, Function.update_noteq hij]
        exact inv.errIffFailed i
    · intro w' hw'
      dsimp only at hw' ⊢
      by_cases hww : w' = w
      · subst hww; rw [Function.update_same] at hw'; simp at hw'
      · rw [Function.update_noteq hww] at hw'
        exact inv.doneQueueEmpty w' hw'
  | terminate w hidle hqe =>
    refine ⟨inv.queueSuffix, inv.queuedIffInQueue, ?_, ?_, ?_, inv.errIffFailed, ?_⟩
    · intro w' j' hw'
      dsimp only at hw' ⊢
      by_cases hww : w' = w
      · subst hww; rw [Function.update_same] at hw'; simp at hw'
      · rw [Function.update_noteq hww] at hw'
        exact inv.busyStatus w' j' hw'
    · intro w₁ w₂ j' h₁ h₂
      dsimp only at h₁ h₂
      by_cases hw₁ : w₁ = w
      · subst hw₁; rw [Function.update_same] at h₁; simp at h₁
      · by_cases hw₂ : w₂ = w
        · subst hw₂; rw [Function.update_same] at h₂; simp at h₂
        · rw [Function.update_noteq hw₁] at h₁
          rw [Function.update_noteq hw₂] at h₂
          exact inv.busyUnique w₁ w₂ j' h₁ h₂
    · intro i hi
      dsimp only at hi ⊢
      obtain ⟨w', hw'⟩ := inv.processingBusy i hi
      have hww : w' ≠ w := by
        intro hwe; subst hwe; rw [hidle] at hw'; simp at hw'
      exact ⟨w', by rw [Function.update_noteq hww]; exact hw'⟩
    · intro w' hw'
      exact hqe

theorem einv_reach {W n : Nat} {s : EState W n} (h : EReach W n s) : EInv W n s := by
  induction h with
  | init => exact einv_init W n
  | step _ hstep ih => exact einv_step ih hstep

theorem ginv_init (W n : Nat) : GInv W n (initGS W n) := by
  refine ⟨⟨0, rfl⟩, ?_, ?_, ?_, ?_, ?_, ?_⟩
  · intro j; simp [initGS, List.mem_finRange]
  · intro w j h; simp [initGS] at h
  · intro w₁ w₂ j h₁ h₂; simp [initGS] at h₁
  · intro j h; simp [initGS, GStatus.isInFlight] at h
  · intro j; simp [initGS]
  · intro w h; simp [initGS] at h

theorem ginv_step {W n : Nat} {s t : GState W n} (inv : GInv W n s) (h : GStep W n s t) :
    GInv W n t := by
  cases h with
  | claim w j rest hidle hq =>
    obtain ⟨k, hk⟩ := inv.queueSuffix
    have hdrop : (List.finRange n).drop k = j :: rest := by rw [← hk, hq]
    have hjq : s.status j = .queued :=
      (inv.queuedIffInQueue j).2 (by rw [hq]; exact List.mem_cons_self _ _)
    have hnodup : (j :: rest).Nodup := by rw [← hq, hk]; exact finRange_drop_nodup n k
    have hjrest : j ∉ rest := (List.nodup_cons.1 hnodup).1
    refine ⟨⟨k + 1, (finRange_drop_tail hdrop).symm⟩, ?_, ?_, ?_, ?_, ?_, ?_⟩
    · intro i
      dsimp only
      by_cases hij : i = j
      · subst hij
        rw [Function.update_same]
        constructor
        · intro hco; exact absurd hco (by decide)
        · intro hmem; exact absurd hmem hjrest
      · rw [Function.update_noteq hij]
        rw [inv.queuedIffInQueue i, hq]
        simp [List.mem_cons, hij]
    · intro w' j' hw'
      dsimp only at hw' ⊢
      by_cases hww : w' = w
      · subst hww
        rw [Function.update_same] at hw'
        injection hw' with hj
        subst hj
        rw [Function.update_same]
        exact Or.inl rfl
      · rw [Function.update_noteq hww] at hw'
        have hps := inv.busyStatus w' j' hw'
        have hjj : j' ≠ j := by
          intro hji; subst hji
          rcases hps with hg | hg <;> (rw [hjq] at hg; exact absurd hg (by decide))
        rw [Function.update_noteq hjj]
        exact hps
    · intro w₁ w₂ j' h₁ h₂
      dsimp only at h₁ h₂
      by_cases hw₁ : w₁ = w
      · by_cases hw₂ : w₂ = w
        · rw [hw₁, hw₂]
        · subst hw₁
          rw [Function.update_same] at h₁
          injection h₁ with hj
          rw [Function.update_noteq hw₂] at h₂
          have hps := inv.busyStatus w₂ j' h₂
          rw [← hj] at hps
          rcases hps with hg | hg <;> (rw [hjq] at hg; exact absurd hg (by decide))
      · by_cases hw₂ : w₂ = w
        · subst hw₂
          rw [Function.update_same] at h₂
          injection h₂ with hj
          rw [Function.update_noteq hw₁] at h₁
          have hps := inv.busyStatus w₁ j' h₁
          rw [← hj] at hps
          rcases hps with hg | hg <;> (rw [hjq] at hg; exact absurd hg (by decide))
        · rw [Function.update_noteq hw₁] at h₁
          rw [Function.update_noteq hw₂] at h₂
          exact inv.busyUnique w₁ w₂ j' h₁ h₂
    · intro i hi
      dsimp only at hi ⊢
      by_cases hij : i = j
      · subst hij
        exact ⟨w, by rw [Function.update_same]⟩
      · rw [Function.update_noteq hij] at hi
        obtain ⟨w', hw'⟩ := inv.inFlightBusy i hi
        have hww : w' ≠ w := by
          intro hwe; subst hwe; rw [hidle] at hw'; simp at hw'
        exact ⟨w', by rw [Function.update_noteq hww]; exact hw'⟩
    · intro i
      dsimp only
      by_cases hij : i = j
      · subst hij
        rw [Function.update_same]
        constructor
        · intro hsome
          have hfail := (inv.errIffFailed i).1 hsome
          rw [hjq] at hfail
          exact absurd hfail (by decide)
        · intro hco; exact absurd hco (by decide)
      · rw [Function.update_noteq hij]
        exact inv.errIffFailed i
    · intro w' hw'
      dsimp only at hw' ⊢
      by_cases hww : w' = w
      · subst hww; rw [Function.update_same] at hw'; simp at hw'
      · rw [Function.update_noteq hww] at hw'
        have hqe := inv.doneQueueEmpty w' hw'
        rw [hq] at hqe
        simp at hqe
  | beginCommit w j hbusy hgen =>
    refine ⟨inv.queueSuffix, ?_, ?_, inv.busyUnique, ?_, ?_, ?_⟩
    · intro i
      dsimp only
      by_cases hij : i = j
      · subst hij
        rw [Function.update_same]
        constructor
        · intro hco; exact absurd hco (by decide)
        · intro hmem
          have := (inv.queuedIffInQueue i).2 hmem
          rw [this] at hgen; exact absurd hgen (by decide)
      · rw [Function.update_noteq hij]
        exact inv.queuedIffInQueue i
    · intro w' j' hw'
      dsimp only at hw' ⊢
      by_cases hjj : j' = j
      · subst hjj
        rw [Function.update_same]
        exact Or.inr rfl
      · rw [Function.update_noteq hjj]
        exact inv.busyStatus w' j' hw'
    · intro i hi
      dsimp only at hi ⊢
      by_cases hij : i = j
      · subst hij
        exact ⟨w, hbusy⟩
      · rw [Function.update_noteq hij] at hi
        exact inv.inFlightBusy i hi
    · intro i
      dsimp only
      by_cases hij : i = j
      · subst hij
        rw [Function.update_same]
        constructor
        · intro hsome
          have hfail := (inv.errIffFailed i).1 hsome
          rw [hgen] at hfail
          exact absurd hfail (by decide)
        · intro hco; exact absurd hco (by decide)
      · rw [Function.update_noteq hij]
        exact inv.errIffFailed i
    · intro w' hw'
      exact inv.doneQueueEmpty w' hw'
  | finishOk w j hbusy hcom =>
    refine ⟨inv.queueSuffix, ?_, ?_, ?_, ?_, ?_, ?_⟩
    · intro i
      dsimp only
      by_cases hij : i = j
      · subst hij
        rw [Function.update_same]
        constructor
        · intro hco; exact absurd hco (by decide)
        · intro hmem
          have := (inv.queuedIffInQueue i).2 hmem
          rw [this] at hcom; exact absurd hcom (by decide)
      · rw [Function.update_noteq hij]
        exact inv.queuedIffInQueue i
    · intro w' j' hw'
      dsimp only at hw' ⊢
      by_cases hww : w' = w
      · subst hww; rw [Function.update_same] at hw'; simp at hw'
      · rw [Function.update_noteq hww] at hw'
        have hps' := inv.busyStatus w' j' hw'
        have hjj : j' ≠ j := by
          intro hji; subst hji
          exact hww (inv.busyUnique w' w j' hw' hbusy)
        rw [Function.update_noteq hjj]
        exact hps'
    · intro w₁ w₂ j' h₁ h₂
      dsimp only at h₁ h₂
      by_cases hw₁ : w₁ = w
      · subst hw₁; rw [Function.update_same] at h₁; simp at h₁
      · by_cases hw₂ : w₂ = w
        · subst hw₂; rw [Function.update_same] at h₂; simp at h₂
        · rw [Function.update_noteq hw₁] at h₁
          rw [Function.update_noteq hw₂] at h₂
          exact inv.busyUnique w₁ w₂ j' h₁ h₂
    · intro i hi
      dsimp only at hi ⊢
      by_cases hij : i = j
      · subst hij
        rw [Function.update_same] at hi
        simp [GStatus.isInFlight] at hi
      · rw [Function.update_noteq hij] at hi
        obtain ⟨w', hw'⟩ := inv.inFlightBusy i hi
        have hww : w' ≠ w := by
          intro hwe; subst hwe
          rw [hbusy] at hw'
          injection hw' with hji
          exact hij hji.symm
        exact ⟨w', by rw [Function.update_noteq hww]; exact hw'⟩
    · intro i
      dsimp only
      by_cases hij : i = j
      · subst hij
        rw [Function.update_same]
        constructor
        · intro hsome
          have hfail := (inv.errIffFailed i).1 hsome
          rw [hfail] at hcom; exact absurd hcom (by decide)
        · intro hco; exact absurd hco (by decide)
      · rw [Function.update_noteq hij]
        exact inv.errIffFailed i
    · intro w' hw'
      dsimp only at hw' ⊢
      by_cases hww : w' = w
      · subst hww; rw [Function.update_same] at hw'; simp at hw'
      · rw [Function.update_noteq hww] at hw'
        exact inv.doneQueueEmpty w' hw'
  | finishFail w j msg hbusy =>
    have hdisj := inv.busyStatus w j hbusy
    have hnq : s.status j ≠ .queued := by
      rcases hdisj with hg | hg <;> simp [hg]
    refine ⟨inv.queueSuffix, ?_, ?_, ?_, ?_, ?_, ?_⟩
    · intro i
      dsimp only
      by_cases hij : i = j
      · subst hij
        rw [Function.update_same]
        constructor
        · intro hco; exact absurd hco (by decide)
        · intro hmem
          exact absurd ((inv.queuedIffInQueue i).2 hmem) hnq
      · rw [Function.update_noteq hij]
        exact inv.queuedIffInQueue i
    · intro w' j' hw'
      dsimp only at hw' ⊢
      by_cases hww : w' = w
      · subst hww; rw [Function.update_same] at hw'; simp at hw'
      · rw [Function.update_noteq hww] at hw'
        have hps' := inv.busyStatus w' j' hw'
        have hjj : j' ≠ j := by
          intro hji; subst hji
          exact hww (inv.busyUnique w' w j' hw' hbusy)
        rw [Function.update_noteq hjj]
        exact hps'
    · intro w₁ w₂ j' h₁ h₂
      dsimp only at h₁ h₂
      by_cases hw₁ : w₁ = w
      · subst hw₁; rw [Function.update_same] at h₁; simp at h₁
      · by_cases hw₂ : w₂ = w
        · subst hw₂; rw [Function.update_same] at h₂; simp at h₂
        · rw [Function.update_noteq hw₁] at h₁
          rw [Function.update_noteq hw₂] at h₂
          exact inv.busyUnique w₁ w₂ j' h₁ h₂
    · intro i hi
      dsimp only at hi ⊢
      by_cases hij : i = j
      · subst hij
        rw [Function.update_same] at hi
        simp [GStatus.isInFlight] at hi
      · rw [Function.update_noteq hij] at hi
        obtain ⟨w', hw'⟩ := inv.inFlightBusy i hi
        have hww : w' ≠ w := by
          intro hwe; subst hwe
          rw [hbusy] at hw'
          injection hw' with hji
          exact hij hji.symm
        exact ⟨w', by rw [Function.update_noteq hww]; exact hw'⟩
    · intro i
      dsimp only
      by_cases hij : i = j
      · subst hij
        rw [Function.update_same, Function.update_same]
        simp
      · rw [Function.update_noteq hij, Function.update_noteq hij]
        exact inv.errIffFailed i
    · intro w' hw'
      dsimp only at hw' ⊢
      by_cases hww : w' = w
      · subst hww; rw [Function.update_same] at hw'; simp at hw'
      · rw [Function.update_noteq hww] at hw'
        exact inv.doneQueueEmpty w' hw'
  | terminate w hidle hqe =>
    refine ⟨inv.queueSuffix, inv.queuedIffInQueue, ?_, ?_, ?_, inv.errIffFailed, ?_⟩
    · intro w' j' hw'
      dsimp only at hw' ⊢
      by_cases hww : w' = w
      · subst hww; rw [Function.update_same] at hw'; simp at hw'
      · rw [Function.update_noteq hww] at hw'
        exact inv.busyStatus w' j' hw'
    · intro w₁ w₂ j' h₁ h₂
      dsimp only at h₁ h₂
      by_cases hw₁ : w₁ = w
      · subst hw₁; rw [Function.update_same] at h₁; simp at h₁
      · by_cases hw₂ : w₂ = w
        · subst hw₂; rw [Function.update_same] at h₂; simp at h₂
        · rw [Function.update_noteq hw₁] at h₁
          rw [Function.update_noteq hw₂] at h₂
          exact inv.busyUnique w₁ w₂ j' h₁ h₂
    · intro i hi
      dsimp only at hi ⊢
      obtain ⟨w', hw'⟩ := inv.inFlightBusy i hi
      have hww : w' ≠ w := by
        intro hwe; subst hwe; rw [hidle] at hw'; simp at hw'
      exact ⟨w', by rw [Function.update_noteq hww]; exact hw'⟩
    · intro w' hw'
      exact hqe

theorem ginv_reach {W n : Nat} {s : GState W n} (h : GReach W n s) : GInv W n s := by
  induction h with
  | init => exact ginv_init W n
  | step _ hstep ih => exact ginv_step ih hstep

theorem ereach_esteps {W n : Nat} {s u : EState W n} (hr : EReach W n s)
    (hs : ESteps W n s u) : EReach W n u := by
  induction hs with
  | refl => exact hr
  | tail _ hstep ih => exact EReach.step ih hstep

theorem esteps_head {W n : Nat} {s t u : EState W n} (h : EStep W n s t)
    (hs : ESteps W n t u) : ESteps W n s u := by
  induction hs with
  | refl => exact ESteps.tail (ESteps.refl s) h
  | tail _ hstep ih => exact ESteps.tail ih hstep

theorem estep_rank_mono {W n : Nat} {s t : EState W n} (inv : EInv W n s)
    (h : EStep W n s t) (j : Fin n) : erank (s.status j) ≤ erank (t.status j) := by
  cases h with
  | claim w i rest hidle hq =>
    dsimp only
    by_cases hij : j = i
    · subst hij
      have hjq : s.status j = .queued :=
        (inv.queuedIffInQueue j).2 (by rw [hq]; exact List.mem_cons_self _ _)
      rw [Function.update_same, hjq]
      decide
    · rw [Function.update_noteq hij]
  | claimFail w i rest msg hidle hq =>
    dsimp only
    by_cases hij : j = i
    · subst hij
      have hjq : s.status j = .queued :=
        (inv.queuedIffInQueue j).2 (by rw [hq]; exact List.mem_cons_self _ _)
      rw [Function.update_same, hjq]
      decide
    · rw [Function.update_noteq hij]
  | finishOk w i hbusy =>
    dsimp only
    by_cases hij : j = i
    · subst hij
      have hip : s.status j = .processing := inv.busyStatus w j hbusy
      rw [Function.update_same, hip]
      decide
    · rw [Function.update_noteq hij]
  | finishSkip w i hbusy =>
    dsimp only
    by_cases hij : j = i
    · subst hij
      have hip : s.status j = .processing := inv.busyStatus w j hbusy
      rw [Function.update_same, hip]
      decide
    · rw [Function.update_noteq hij]
  | finishFail w i msg hbusy =>
    dsimp only
    by_cases hij : j = i
    · subst hij
      have hip : s.status j = .processing := inv.busyStatus w j hbusy
      rw [Function.update_same, hip]
      decide
    · rw [Function.update_noteq hij]
  | terminate w hidle hqe =>
    dsimp only
    exact le_refl _

theorem estep_terminal_stable {W n : Nat} {s t : EState W n} (inv : EInv W n s)
    (h : EStep W n s t) (j : Fin n) (hterm : (s.status j).isTerminal = true) :
    t.status j = s.status j ∧ t.errMsg j = s.errMsg j := by
  cases h with
  | claim w i rest hidle hq =>
    have hiq : s.status i = .queued :=
      (inv.queuedIffInQueue i).2 (by rw [hq]; exact List.mem_cons_self _ _)
    have hij : j ≠ i := by
      intro he; subst he; rw [hiq] at hterm; simp [EStatus.isTerminal] at hterm
    exact ⟨by dsimp only; rw [Function.update_noteq hij], rfl⟩
  | claimFail w i rest msg hidle hq =>
    have hiq : s.status i = .queued :=
      (inv.queuedIffInQueue i).2 (by rw [hq]; exact List.mem_cons_self _ _)
    have hij : j ≠ i := by
      intro he; subst he; rw [hiq] at hterm; simp [EStatus.isTerminal] at hterm
    exact ⟨by dsimp only; rw [Function.update_noteq hij],
      by dsimp only; rw [Function.update_noteq hij]⟩
  | finishOk w i hbusy =>
    have hip : s.status i = .processing := inv.busyStatus w i hbusy
    have hij : j ≠ i := by
      intro he; subst he; rw [hip] at hterm; simp [EStatus.isTerminal] at hterm
    exact ⟨by dsimp only; rw [Function.update_noteq hij], rfl⟩
  | finishSkip w i hbusy =>
    have hip : s.status i = .processing := inv.busyStatus w i hbusy
    have hij : j ≠ i := by
      intro he; subst he; rw [hip] at hterm; simp [EStatus.isTerminal] at hterm
    exact ⟨by dsimp only; rw [Function.update_noteq hij], rfl⟩
  | finishFail w i msg hbusy =>
    have hip : s.status i = .processing := inv.busyStatus w i hbusy
    have hij : j ≠ i := by
      intro he; subst he; rw [hip] at hterm; simp [EStatus.isTerminal] at hterm
    exact ⟨by dsimp only; rw [Function.update_noteq hij],
      by dsimp only; rw [Function.update_noteq hij]⟩
  | terminate w hidle hqe =>
    exact ⟨rfl, rfl⟩

theorem esteps_terminal_stable {W n : Nat} {s u : EState W n} (hr : EReach W n s)
    (hs : ESteps W n s u) (j : Fin n) (hterm : (s.status j).isTerminal = true) :
    u.status j = s.status j ∧ u.errMsg j = s.errMsg j := by
  induction hs with
  | refl => exact ⟨rfl, rfl⟩
  | tail hst hstep ih =>
    obtain ⟨h1, h2⟩ := ih
    have hrt := ereach_esteps hr hst
    have hterm2 := hterm
    rw [← h1] at hterm2
    obtain ⟨h3, h4⟩ := estep_terminal_stable (einv_reach hrt) hstep j hterm2
    exact ⟨h3.trans h1, h4.trans h2⟩

theorem edone_all_terminal {W n : Nat} {s : EState W n} (hW : 0 < W) (hr : EReach W n s)
    (hd : allDoneE s) (j : Fin n) : (s.status j).isTerminal = true := by
  have inv := einv_reach hr
  have hqe : s.queue = [] := inv.doneQueueEmpty ⟨0, hW⟩ (hd ⟨0, hW⟩)
  cases hst : s.status j with
  | queued =>
    have hmem := (inv.queuedIffInQueue j).1 hst
    rw [hqe] at hmem
    simp at hmem
  | processing =>
    obtain ⟨w, hw⟩ := inv.processingBusy j hst
    rw [hd w] at hw
    simp at hw
  | success => rfl
  | skipped => rfl
  | failed => rfl

theorem sum_update_weight_lt {m : Nat} {α : Type} (wt : α → Nat) (f : Fin m → α) (i : Fin m)
    (v : α) (h : wt v < wt (f i)) :
    (∑ j : Fin m, wt (Function.update f i v j)) < ∑ j : Fin m, wt (f j) := by
  classical
  have hpt : ∀ j : Fin m, wt (Function.update f i v j) =
      Function.update (fun x => wt (f x)) i (wt v) j := by
    intro j
    by_cases hj : j = i
    · subst hj; rw [Function.update_same, Function.update_same]
    · rw [Function.update_noteq hj, Function.update_noteq hj]
  rw [Finset.sum_congr rfl fun j _ => hpt j]
  rw [Finset.sum_update_of_mem (Finset.mem_univ i)]
  have h2 : (∑ j : Fin m, wt (f j)) =
      wt (f i) + ∑ x ∈ Finset.univ.erase i, wt (f x) :=
    (Finset.add_sum_erase _ _ (Finset.mem_univ i)).symm
  rw [h2, Finset.sdiff_singleton_eq_erase]
  exact Nat.add_lt_add_right h _

theorem sum_update_weight_eq {m : Nat} {α : Type} (wt : α → Nat) (f : Fin m → α) (i : Fin m)
    (v : α) (h : wt v = wt (f i)) :
    (∑ j : Fin m, wt (Function.update f i v j)) = ∑ j : Fin m, wt (f j) := by
  classical
  have hpt : ∀ j : Fin m, wt (Function.update f i v j) =
      Function.update (fun x => wt (f x)) i (wt v) j := by
    intro j
    by_cases hj : j = i
    · subst hj; rw [Function.update_same, Function.update_same]
    · rw [Function.update_noteq hj, Function.update_noteq hj]
  rw [Finset.sum_congr rfl fun j _ => hpt j]
  rw [Finset.sum_update_of_mem (Finset.mem_univ i)]
  have h2 : (∑ j : Fin m, wt (f j)) =
      wt (f i) + ∑ x ∈ Finset.univ.erase i, wt (f x) :=
    (Finset.add_sum_erase _ _ (Finset.mem_univ i)).symm
  rw [h2, Finset.sdiff_singleton_eq_erase, h]

theorem estep_measure_lt {W n : Nat} {s t : EState W n} (inv : EInv W n s)
    (h : EStep W n s t) : measE t < measE s := by
  cases h with
  | claim w i rest hidle hq =>
    have hiq : s.status i = .queued :=
      (inv.queuedIffInQueue i).2 (by rw [hq]; exact List.mem_cons_self _ _)
    have h1 : (∑ j : Fin n, eWeight (Function.update s.status i .processing j)) <
        ∑ j : Fin n, eWeight (s.status j) :=
      sum_update_weight_lt eWeight s.status i .processing (by rw [hiq]; decide)
    have h2 : (∑ x : Fin W, wWeight (Function.update s.workers w (.busy i) x)) =
        ∑ x : Fin W, wWeight (s.workers x) :=
      sum_update_weight_eq wWeight s.workers w (.busy i) (by rw [hidle]; rfl)
    dsimp only [measE]
    rw [h2]
    exact Nat.add_lt_add_right h1 _
  | claimFail w i rest msg hidle hq =>
    have hiq : s.status i = .queued :=
      (inv.queuedIffInQueue i).2 (by rw [hq]; exact List.mem_cons_self _ _)
    have h1 : (∑ j : Fin n, eWeight (Function.update s.status i .failed j)) <
        ∑ j : Fin n, eWeight (s.status j) :=
      sum_update_weight_lt eWeight s.status i .failed (by rw [hiq]; decide)
    dsimp only [measE]
    exact Nat.add_lt_add_right h1 _
  | finishOk w i hbusy =>
    have hip : s.status i = .processing := inv.busyStatus w i hbusy
    have h1 : (∑ j : Fin n, eWeight (Function.update s.status i .success j)) <
        ∑ j : Fin n, eWeight (s.status j) :=
      sum_update_weight_lt eWeight s.status i .success (by rw [hip]; decide)
    have h2 : (∑ x : Fin W, wWeight (Function.update s.workers w .idle x)) =
        ∑ x : Fin W, wWeight (s.workers x) :=
      sum_update_weight_eq wWeight s.workers w .idle (by rw [hbusy]; rfl)
    dsimp only [measE]
    rw [h2]
    exact Nat.add_lt_add_right h1 _
  | finishSkip w i hbusy =>
    have hip : s.status i = .processing := inv.busyStatus w i hbusy
    have h1 : (∑ j : Fin n, eWeight (Function.update s.status i .skipped j)) <
        ∑ j : Fin n, eWeight (s.status j) :=
      sum_update_weight_lt eWeight s.status i .skipped (by rw [hip]; decide)
    have h2 : (∑ x : Fin W, wWeight (Function.update s.workers w .idle x)) =
        ∑ x : Fin W, wWeight (s.workers x) :=
      sum_update_weight_eq wWeight s.workers w .idle (by rw [hbusy]; rfl)
    dsimp only [measE]
    rw [h2]
    exact Nat.add_lt_add_right h1 _
  | finishFail w i msg hbusy =>
    have hip : s.status i = .processing := inv.busyStatus w i hbusy
    have h1 : (∑ j : Fin n, eWeight (Function.update s.status i .failed j)) <
        ∑ j : Fin n, eWeight (s.status j) :=
      sum_update_weight_lt eWeight s.status i .failed (by rw [hip]; decide)
    have h2 : (∑ x : Fin W, wWeight (Function.update s.workers w .idle x)) =
        ∑ x : Fin W, wWeight (s.workers x) :=
      sum_update_weight_eq wWeight s.workers w .idle (by rw [hbusy]; rfl)
    dsimp only [measE]
    rw [h2]
    exact Nat.add_lt_add_right h1 _
  | terminate w hidle hqe =>
    have h2 : (∑ x : Fin W, wWeight (Function.update s.workers w .done x)) <
        ∑ x : Fin W, wWeight (s.workers x) :=
      sum_update_weight_lt wWeight s.workers w .done (by rw [hidle]; exact Nat.zero_lt_one)
    dsimp only [measE]
    exact Nat.add_lt_add_left h2 _

theorem eprogress {W n : Nat} {s : EState W n} (hnd : ¬ allDoneE s) :
    ∃ t, EStep W n s t := by
  have hex : ∃ w : Fin W, s.workers w ≠ .done := by
    by_contra hco
    push_neg at hco
    exact hnd fun w => hco w
  obtain ⟨w, hw⟩ := hex
  cases hcw : s.workers w with
  | idle =>
    cases hq : s.queue with
    | nil => exact ⟨_, EStep.terminate s w hcw hq⟩
    | cons j rest => exact ⟨_, EStep.claim s w j rest hcw hq⟩
  | busy j => exact ⟨_, EStep.finishOk s w j hcw⟩
  | done => exact absurd hcw hw

theorem ecompletion {W n : Nat} (s : EState W n) (hr : EReach W n s) :
    ∃ u, ESteps W n s u ∧ allDoneE u := by
  by_cases hd : allDoneE s
  · exact ⟨s, ESteps.refl s, hd⟩
  · obtain ⟨t, hstep⟩ := eprogress hd
    have hlt : measE t < measE s := estep_measure_lt (einv_reach hr) hstep
    obtain ⟨u, hsteps, hdone⟩ := ecompletion t (EReach.step hr hstep)
    exact ⟨u, esteps_head hstep hsteps, hdone⟩
termination_by measE s
decreasing_by exact hlt

theorem gstep_rank_mono {W n : Nat} {s t : GState W n} (inv : GInv W n s)
    (h : GStep W n s t) (j : Fin n) : grank (s.status j) ≤ grank (t.status j) := by
  cases h with
  | claim w i rest hidle hq =>
    dsimp only
    by_cases hij : j = i
    · subst hij
      have hjq : s.status j = .queued :=
        (inv.queuedIffInQueue j).2 (by rw [hq]; exact List.mem_cons_self _ _)
      rw [Function.update_same, hjq]
      decide
    · rw [Function.update_noteq hij]
  | beginCommit w i hbusy hgen =>
    dsimp only
    by_cases hij : j = i
    · subst hij
      rw [Function.update_same, hgen]
      decide
    · rw [Function.update_noteq hij]
  | finishOk w i hbusy hcom =>
    dsimp only
    by_cases hij : j = i
    · subst hij
      rw [Function.update_same, hcom]
      decide
    · rw [Function.update_noteq hij]
  | finishFail w i msg hbusy =>
    dsimp only
    by_cases hij : j = i
    · subst hij
      rw [Function.update_same]
      rcases inv.busyStatus w j hbusy with hg | hg <;> (rw [hg]; decide)
    · rw [Function.update_noteq hij]
  | terminate w hidle hqe =>
    dsimp only
    exact le_refl _

theorem gstep_terminal_stable {W n : Nat} {s t : GState W n} (inv : GInv W n s)
    (h : GStep W n s t) (j : Fin n) (hterm : (s.status j).isTerminal = true) :
    t.status j = s.status j ∧ t.errMsg j = s.errMsg j := by
  cases h with
  | claim w i rest hidle hq =>
    have hiq : s.status i = .queued :=
      (inv.queuedIffInQueue i).2 (by rw [hq]; exact List.mem_cons_self _ _)
    have hij : j ≠ i := by
      intro he; subst he; rw [hiq] at hterm; simp [GStatus.isTerminal] at hterm
    exact ⟨by dsimp only; rw [Function.update_noteq hij], rfl⟩
  | beginCommit w i hbusy hgen =>
    have hij : j ≠ i := by
      intro he; subst he; rw [hgen] at hterm; simp [GStatus.isTerminal] at hterm
    exact ⟨by dsimp only; rw [Function.update_noteq hij], rfl⟩
  | finishOk w i hbusy hcom =>
    have hij : j ≠ i := by
      intro he; subst he; rw [hcom] at hterm; simp [GStatus.isTerminal] at hterm
    exact ⟨by dsimp only; rw [Function.update_noteq hij], rfl⟩
  | finishFail w i msg hbusy =>
    have hij : j ≠ i := by
      intro he; subst he
      rcases inv.busyStatus w j hbusy with hg | hg <;>
        (rw [hg] at hterm; simp [GStatus.isTerminal] at hterm)
    exact ⟨by dsimp only; rw [Function.update_noteq hij],
      by dsimp only; rw [Function.update_noteq hij]⟩
  | terminate w hidle hqe =>
    exact ⟨rfl, rfl⟩

theorem greach_gsteps {W n : Nat} {s u : GState W n} (hr : GReach W n s)
    (hs : GSteps W n s u) : GReach W n u := by
  induction hs with
  | refl => exact hr
  | tail _ hstep ih => exact GReach.step ih hstep

theorem gsteps_head {W n : Nat} {s t u : GState W n} (h : GStep W n s t)
    (hs : GSteps W n t u) : GSteps W n s u := by
  induction hs with
  | refl => exact GSteps.tail (GSteps.refl s) h
  | tail _ hstep ih => exact GSteps.tail ih hstep

theorem gsteps_terminal_stable {W n : Nat} {s u : GState W n} (hr : GReach W n s)
    (hs : GSteps W n s u) (j : Fin n) (hterm : (s.status j).isTerminal = true) :
    u.status j = s.status j ∧ u.errMsg j = s.errMsg j := by
  induction hs with
  | refl => exact ⟨rfl, rfl⟩
  | tail hst hstep ih =>
    obtain ⟨h1, h2⟩ := ih
    have hrt := greach_gsteps hr hst
    have hterm2 := hterm
    rw [← h1] at hterm2
    obtain ⟨h3, h4⟩ := gstep_terminal_stable (ginv_reach hrt) hstep j hterm2
    exact ⟨h3.trans h1, h4.trans h2⟩

theorem gstep_measure_lt {W n : Nat} {s t : GState W n} (inv : GInv W n s)
    (h : GStep W n s t) : measG t < measG s := by
  cases h with
  | claim w i rest hidle hq =>
    have hiq : s.status i = .queued :=
      (inv.queuedIffInQueue i).2 (by rw [hq]; exact List.mem_cons_self _ _)
    have h1 : (∑ j : Fin n, gWeight (Function.update s.status i .generating j)) <
        ∑ j : Fin n, gWeight (s.status j) :=
      sum_update_weight_lt gWeight s.status i .generating (by rw [hiq]; decide)
    have h2 : (∑ x : Fin W, wWeight (Function.update s.workers w (.busy i) x)) =
        ∑ x : Fin W, wWeight (s.workers x) :=
      sum_update_weight_eq wWeight s.workers w (.busy i) (by rw [hidle]; rfl)
    dsimp only [measG]
    rw [h2]
    exact Nat.add_lt_add_right h1 _
  | beginCommit w i hbusy hgen =>
    have h1 : (∑ j : Fin n, gWeight (Function.update s.status i .committing j)) <
        ∑ j : Fin n, gWeight (s.status j) :=
      sum_update_weight_lt gWeight s.status i .committing (by rw [hgen]; decide)
    dsimp only [measG]
    exact Nat.add_lt_add_right h1 _
  | finishOk w i hbusy hcom =>
    have h1 : (∑ j : Fin n, gWeight (Function.update s.status i .success j)) <
        ∑ j : Fin n, gWeight (s.status j) :=
      sum_update_weight_lt gWeight s.status i .success (by rw [hcom]; decide)
    have h2 : (∑ x : Fin W, wWeight (Function.update s.workers w .idle x)) =
        ∑ x : Fin W, wWeight (s.workers x) :=
      sum_update_weight_eq wWeight s.workers w .idle (by rw [hbusy]; rfl)
    dsimp only [measG]
    rw [h2]
    exact Nat.add_lt_add_right h1 _
  | finishFail w i msg hbusy =>
    have h1 : (∑ j : Fin n, gWeight (Function.update s.status i .failed j)) <
        ∑ j : Fin n, gWeight (s.status j) :=
      sum_update_weight_lt gWeight s.status i .failed (by
        rcases inv.busyStatus w i hbusy with hg | hg <;> (rw [hg]; decide))
    have h2 : (∑ x : Fin W, wWeight (Function.update s.workers w .idle x)) =
        ∑ x : Fin W, wWeight (s.workers x) :=
      sum_update_weight_eq wWeight s.workers w .idle (by rw [hbusy]; rfl)
    dsimp only [measG]
    rw [h2]
    exact Nat.add_lt_add_right h1 _
  | terminate w hidle hqe =>
    have h2 : (∑ x : Fin W, wWeight (Function.update s.workers w .done x)) <
        ∑ x : Fin W, wWeight (s.workers x) :=
      sum_update_weight_lt wWeight s.workers w .done (by rw [hidle]; exact Nat.zero_lt_one)
    dsimp only [measG]
    exact Nat.add_lt_add_left h2 _

theorem gprogress {W n : Nat} {s : GState W n} (inv : GInv W n s) (hnd : ¬ allDoneG s) :
    ∃ t, GStep W n s t := by
  have hex : ∃ w : Fin W, s.workers w ≠ .done := by
    by_contra hco
    push_neg at hco
    exact hnd fun w => hco w
  obtain ⟨w, hw⟩ := hex
  cases hcw : s.workers w with
  | idle =>
    cases hq : s.queue with
    | nil => exact ⟨_, GStep.terminate s w hcw hq⟩
    | cons j rest => exact ⟨_, GStep.claim s w j rest hcw hq⟩
  | busy j =>
    rcases inv.busyStatus w j hcw with hg | hg
    · exact ⟨_, GStep.beginCommit s w j hcw hg⟩
    · exact ⟨_, GStep.finishOk s w j hcw hg⟩
  | done => exact absurd hcw hw

theorem gcompletion {W n : Nat} (s : GState W n) (hr : GReach W n s) :
    ∃ u, GSteps W n s u ∧ allDoneG u := by
  by_cases hd : allDoneG s
  · exact ⟨s, GSteps.refl s, hd⟩
  · obtain ⟨t, hstep⟩ := gprogress (ginv_reach hr) hd
    have hlt : measG t < measG s := gstep_measure_lt (ginv_reach hr) hstep
    obtain ⟨u, hsteps, hdone⟩ := gcompletion t (GReach.step hr hstep)
    exact ⟨u, gsteps_head hstep hsteps, hdone⟩
termination_by measG s
decreasing_by exact hlt

theorem gdone_all_terminal {W n : Nat} {s : GState W n} (hW : 0 < W) (hr : GReach W n s)
    (hd : allDoneG s) (j : Fin n) : (s.status j).isTerminal = true := by
  have inv := ginv_reach hr
  have hqe : s.queue = [] := inv.doneQueueEmpty ⟨0, hW⟩ (hd ⟨0, hW⟩)
  cases hst : s.status j with
  | queued =>
    have hmem := (inv.queuedIffInQueue j).1 hst
    rw [hqe] at hmem
    simp at hmem
  | generating =>
    obtain ⟨w, hw⟩ := inv.inFlightBusy j (by rw [hst]; rfl)
    rw [hd w] at hw
    simp at hw
  | committing =>
    obtain ⟨w, hw⟩ := inv.inFlightBusy j (by rw [hst]; rfl)
    rw [hd w] at hw
    simp at hw
  | success => rfl
  | failed => rfl

theorem eprocessing_card_le {W n : Nat} {s : EState W n} (hr : EReach W n s) :
    ((Finset.univ : Finset (Fin n)).filter fun j => s.status j = .processing).card ≤ W := by
  classical
  have inv := einv_reach hr
  rcases Finset.eq_empty_or_nonempty
      ((Finset.univ : Finset (Fin n)).filter fun j => s.status j = .processing) with
    he | hne
  · rw [he]; simp
  · obtain ⟨j₀, hj₀⟩ := hne
    obtain ⟨w₀, hw₀⟩ := inv.processingBusy j₀ (Finset.mem_filter.1 hj₀).2
    have hex : ∀ j : Fin n, ∃ w : Fin W, s.status j = .processing → s.workers w = .busy j := by
      intro j
      by_cases hp : s.status j = .processing
      · obtain ⟨w, hw⟩ := inv.processingBusy j hp
        exact ⟨w, fun _ => hw⟩
      · exact ⟨w₀, fun hc => absurd hc hp⟩
    choose f hf using hex
    calc ((Finset.univ : Finset (Fin n)).filter fun j => s.status j = .processing).card
        ≤ (Finset.univ : Finset (Fin W)).card := by
          apply Finset.card_le_card_of_injOn f (fun a _ => Finset.mem_univ (f a))
          intro a ha b hb hab
          have hba : s.workers (f a) = .busy a :=
            hf a (Finset.mem_filter.1 ha).2
          have hbb : s.workers (f b) = .busy b :=
            hf b (Finset.mem_filter.1 hb).2
          rw [hab, hbb] at hba
          injection hba with hres
          exact hres.symm
      _ = W := by simp

theorem ginflight_card_le {W n : Nat} {s : GState W n} (hr : GReach W n s) :
    ((Finset.univ : Finset (Fin n)).filter fun j => (s.status j).isInFlight = true).card ≤ W := by
  classical
  have inv := ginv_reach hr
  rcases Finset.eq_empty_or_nonempty
      ((Finset.univ : Finset (Fin n)).filter fun j => (s.status j).isInFlight = true) with
    he | hne
  · rw [he]; simp
  · obtain ⟨j₀, hj₀⟩ := hne
    obtain ⟨w₀, hw₀⟩ := inv.inFlightBusy j₀ (Finset.mem_filter.1 hj₀).2
    have hex : ∀ j : Fin n, ∃ w : Fin W,
        (s.status j).isInFlight = true → s.workers w = .busy j := by
      intro j
      by_cases hp : (s.status j).isInFlight = true
      · obtain ⟨w, hw⟩ := inv.inFlightBusy j hp
        exact ⟨w, fun _ => hw⟩
      · exact ⟨w₀, fun hc => absurd hc hp⟩
    choose f hf using hex
    calc ((Finset.univ : Finset (Fin n)).filter fun j => (s.status j).isInFlight = true).card
        ≤ (Finset.univ : Finset (Fin W)).card := by
          apply Finset.card_le_card_of_injOn f (fun a _ => Finset.mem_univ (f a))
          intro a ha b hb hab
          have hba : s.workers (f a) = .busy a :=
            hf a (Finset.mem_filter.1 ha).2
          have hbb : s.workers (f b) = .busy b :=
            hf b (Finset.mem_filter.1 hb).2
          rw [hab, hbb] at hba
          injection hba with hres
          exact hres.symm
      _ = W := by simp

theorem getElem_finRange_eq {n i : Nat} (h : i < (List.finRange n).length) :
    (List.finRange n)[i] = ⟨i, by simpa using h⟩ := by
  have hg := List.get_finRange (n := n) (i := i) h
  rwa [List.get_eq_getElem] at hg

theorem mem_drop_finRange {n : Nat} (k : Nat) (j : Fin n) :
    j ∈ (List.finRange n).drop k ↔ k ≤ j.val := by
  constructor
  · intro hmem
    by_contra hge
    push_neg at hge
    have hsplit := List.take_append_drop k (List.finRange n)
    have hnd : ((List.finRange n).take k ++ (List.finRange n).drop k).Nodup := by
      rw [hsplit]; exact List.nodup_finRange n
    have hdisj := (List.nodup_append.1 hnd).2.2
    have hjl : j.val < (List.finRange n).length := by
      rw [List.length_finRange]; exact j.isLt
    have htake : j ∈ (List.finRange n).take k := by
      rw [List.mem_iff_getElem?]
      refine ⟨j.val, ?_⟩
      rw [List.getElem?_take_of_lt hge, List.getElem?_eq_getElem hjl, getElem_finRange_eq hjl]
    exact hdisj htake hmem
  · intro hk
    have hjl : j.val < (List.finRange n).length := by
      rw [List.length_finRange]; exact j.isLt
    have hself : j ∈ (List.finRange n).drop j.val := by
      rw [List.drop_eq_getElem_cons hjl, getElem_finRange_eq hjl]
      have he : (⟨j.val, by rw [List.length_finRange] at hjl; exact hjl⟩ : Fin n) = j := Fin.eta j j.isLt
      rw [he]
      exact List.mem_cons_self _ _
    have hdd : (List.finRange n).drop j.val =
        ((List.finRange n).drop k).drop (j.val - k) := by
      rw [List.drop_drop]
      congr 1
      omega
    rw [hdd] at hself
    exact (List.drop_sublist _ _).subset hself

theorem bulkIsComplete_iff {W n : Nat} (s : EState W n) :
    bulkIsComplete s = true ↔
      ∀ j : Fin n, s.status j ≠ .queued ∧ s.status j ≠ .processing := by
  unfold bulkIsComplete
  rw [Bool.not_eq_true', List.any_eq_false]
  constructor
  · intro h j
    have hj := h j (List.mem_finRange j)
    constructor
    · intro hq; rw [hq] at hj; simp at hj
    · intro hp; rw [hp] at hj; simp at hj
  · intro h j _
    obtain ⟨h1, h2⟩ := h j
    cases hst : s.status j <;> simp_all

theorem projectIsComplete_iff {W n : Nat} (s : GState W n) :
    projectIsComplete s = true ↔
      ∀ j : Fin n, s.status j ≠ .queued ∧ s.status j ≠ .generating ∧
        s.status j ≠ .committing := by
  unfold projectIsComplete
  rw [Bool.not_eq_true', List.any_eq_false]
  constructor
  · intro h j
    have hj := h j (List.mem_finRange j)
    refine ⟨?_, ?_, ?_⟩
    · intro hq; rw [hq] at hj; simp at hj
    · intro hp; rw [hp] at hj; simp at hj
    · intro hp; rw [hp] at hj; simp at hj
  · intro h j _
    obtain ⟨h1, h2, h3⟩ := h j
    cases hst : s.status j <;> simp_all

theorem ereach_of_eq {W n : Nat} {s t : EState W n} (h : EReach W n s) (he : s = t) :
    EReach W n t := he ▸ h

theorem greach_of_eq {W n : Nat} {s t : GState W n} (h : GReach W n s) (he : s = t) :
    GReach W n t := he ▸ h

theorem estep_of_eq {W n : Nat} {s t t' : EState W n} (h : EStep W n s t) (he : t = t') :
    EStep W n s t' := he ▸ h

theorem gstep_of_eq {W n : Nat} {s t t' : GState W n} (h : GStep W n s t) (he : t = t') :
    GStep W n s t' := he ▸ h

theorem estate_ext {W n : Nat} {a b : EState W n} (h1 : a.queue = b.queue)
    (h2 : ∀ j, a.status j = b.status j) (h3 : ∀ j, a.errMsg j = b.errMsg j)
    (h4 : ∀ w, a.workers w = b.workers w) : a = b := by
  obtain ⟨q1, s1, e1, w1⟩ := a
  obtain ⟨q2, s2, e2, w2⟩ := b
  dsimp only at h1 h2 h3 h4
  subst h1
  have hs : s1 = s2 := funext h2
  have he : e1 = e2 := funext h3
  have hw : w1 = w2 := funext h4
  subst hs; subst he; subst hw
  rfl

theorem gstate_ext {W n : Nat} {a b : GState W n} (h1 : a.queue = b.queue)
    (h2 : ∀ j, a.status j = b.status j) (h3 : ∀ j, a.errMsg j = b.errMsg j)
    (h4 : ∀ w, a.workers w = b.workers w) : a = b := by
  obtain ⟨q1, s1, e1, w1⟩ := a
  obtain ⟨q2, s2, e2, w2⟩ := b
  dsimp only at h1 h2 h3 h4
  subst h1
  have hs : s1 = s2 := funext h2
  have he : e1 = e2 := funext h3
  have hw : w1 = w2 := funext h4
  subst hs; subst he; subst hw
  rfl

theorem c1DemoStep : EStep CONCURRENCY_LIMIT 1 (initES CONCURRENCY_LIMIT 1) c1DemoState := by
  refine estep_of_eq
    (EStep.claim (initES CONCURRENCY_LIMIT 1) ⟨0, by decide⟩ ⟨0, by decide⟩ [] rfl (by decide))
    (estate_ext rfl ?_ (fun j => rfl) ?_)
  · intro j
    fin_cases j
    simp [initES, c1DemoState, Function.update, Fin.ext_iff]
  · intro w
    fin_cases w <;> simp [initES, c1DemoState, Function.update, Fin.ext_iff]

theorem c1DemoState_reach : EReach CONCURRENCY_LIMIT 1 c1DemoState :=
  EReach.step EReach.init c1DemoStep

theorem c2Mid_reach : EReach CONCURRENCY_LIMIT 1 c2Mid := by
  refine EReach.step c1DemoState_reach
    (estep_of_eq
      (EStep.finishOk c1DemoState ⟨0, by decide⟩ ⟨0, by decide⟩ (by
        show c1DemoState.workers ⟨0, by decide⟩ = _
        simp [c1DemoState]))
      (estate_ext rfl ?_ (fun j => rfl) ?_))
  · intro j
    fin_cases j
    simp [c1DemoState, c2Mid, Function.update, Fin.ext_iff]
  · intro w
    fin_cases w <;> simp [c1DemoState, c2Mid, Function.update, Fin.ext_iff]

theorem c2DoneUpTo_zero_reach : EReach CONCURRENCY_LIMIT 1 (c2DoneUpTo 0) := by
  refine ereach_of_eq c2Mid_reach (estate_ext rfl (fun j => rfl) (fun j => rfl) ?_)
  intro w
  fin_cases w <;> simp [c2Mid, c2DoneUpTo]

theorem c2DoneUpTo_succ_reach (k : Nat) (hk : k < CONCURRENCY_LIMIT)
    (h : EReach CONCURRENCY_LIMIT 1 (c2DoneUpTo k)) :
    EReach CONCURRENCY_LIMIT 1 (c2DoneUpTo (k + 1)) := by
  refine EReach.step h
    (estep_of_eq
      (EStep.terminate (c2DoneUpTo k) ⟨k, hk⟩ (by
        show (c2DoneUpTo k).workers ⟨k, hk⟩ = _
        simp [c2DoneUpTo]) rfl)
      (estate_ext rfl (fun j => rfl) (fun j => rfl) ?_))
  intro w
  by_cases hwk : w.val = k
  · simp [c2DoneUpTo, Function.update]
    rw [if_pos (by exact Fin.eq_of_val_eq hwk)]
    simp [hwk]
  · simp [c2DoneUpTo, Function.update]
    rw [if_neg (by intro hco; exact hwk (by rw [hco]))]
    by_cases hlt : w.val < k
    · rw [if_pos hlt, if_pos (by omega)]
    · rw [if_neg hlt, if_neg (by omega)]

theorem c2FinalDemo_reach : EReach CONCURRENCY_LIMIT 1 c2FinalDemo := by
  have h1 := c2DoneUpTo_succ_reach 0 (by decide) c2DoneUpTo_zero_reach
  have h2 := c2DoneUpTo_succ_reach 1 (by decide) h1
  have h3 := c2DoneUpTo_succ_reach 2 (by decide) h2
  have h4 := c2DoneUpTo_succ_reach 3 (by decide) h3
  have h5 := c2DoneUpTo_succ_reach 4 (by decide) h4
  refine ereach_of_eq h5 (estate_ext rfl (fun j => rfl) (fun j => rfl) ?_)
  intro w
  fin_cases w <;> simp [c2DoneUpTo, c2FinalDemo]

theorem c2FinalDemo_done : allDoneE c2FinalDemo := by
  intro w
  rfl

theorem c4Mid1_reach : EReach CONCURRENCY_LIMIT 2 c4Mid1 := by
  refine EReach.step (EReach.init (W := CONCURRENCY_LIMIT) (n := 2))
    (estep_of_eq
      (EStep.claim _ ⟨0, by decide⟩ ⟨0, by decide⟩ [⟨1, by decide⟩] rfl (by decide))
      (estate_ext rfl ?_ (fun j => rfl) ?_))
  · intro j
    fin_cases j <;> simp [initES, c4Mid1, Function.update, Fin.ext_iff]
  · intro w
    fin_cases w <;> simp [initES, c4Mid1, Function.update, Fin.ext_iff]

theorem c4Mid2_reach : EReach CONCURRENCY_LIMIT 2 c4Mid2 := by
  refine EReach.step c4Mid1_reach
    (estep_of_eq
      (EStep.claim c4Mid1 ⟨1, by decide⟩ ⟨1, by decide⟩ [] (by
        show c4Mid1.workers ⟨1, by decide⟩ = _
        simp [c4Mid1]) rfl)
      (estate_ext rfl ?_ (fun j => rfl) ?_))
  · intro j
    fin_cases j <;> simp [c4Mid1, c4Mid2, Function.update, Fin.ext_iff]
  · intro w
    fin_cases w <;> simp [c4Mid1, c4Mid2, Function.update, Fin.ext_iff]

theorem c4StateA_reach : EReach CONCURRENCY_LIMIT 2 c4StateA := by
  refine EReach.step c4Mid2_reach
    (estep_of_eq
      (EStep.finishOk c4Mid2 ⟨0, by decide⟩ ⟨0, by decide⟩ (by
        show c4Mid2.workers ⟨0, by decide⟩ = _
        simp [c4Mid2]))
      (estate_ext rfl ?_ (fun j => rfl) ?_))
  · intro j
    fin_cases j <;> simp [c4Mid2, c4StateA, Function.update, Fin.ext_iff]
  · intro w
    fin_cases w <;> simp [c4Mid2, c4StateA, Function.update, Fin.ext_iff]

theorem c4StateB_reach : EReach CONCURRENCY_LIMIT 2 c4StateB := by
  refine EReach.step c4Mid2_reach
    (estep_of_eq
      (EStep.finishOk c4Mid2 ⟨1, by decide⟩ ⟨1, by decide⟩ (by
        show c4Mid2.workers ⟨1, by decide⟩ = _
        simp [c4Mid2]))
      (estate_ext rfl ?_ (fun j => rfl) ?_))
  · intro j
    fin_cases j <;> simp [c4Mid2, c4StateB, Function.update, Fin.ext_iff]
  · intro w
    fin_cases w <;> simp [c4Mid2, c4StateB, Function.update, Fin.ext_iff]

theorem gDemoStep : GStep CONCURRENCY_LIMIT 1 (initGS CONCURRENCY_LIMIT 1) gDemoState := by
  refine gstep_of_eq
    (GStep.claim (initGS CONCURRENCY_LIMIT 1) ⟨0, by decide⟩ ⟨0, by decide⟩ [] rfl (by decide))
    (gstate_ext rfl ?_ (fun j => rfl) ?_)
  · intro j
    fin_cases j
    simp [initGS, gDemoState, Function.update, Fin.ext_iff]
  · intro w
    fin_cases w <;> simp [initGS, gDemoState, Function.update, Fin.ext_iff]

theorem gDemoState_reach : GReach CONCURRENCY_LIMIT 1 gDemoState :=
  GReach.step GReach.init gDemoStep

theorem foldl_append_init (l : List String) :
    ∀ a : String, l.foldl (· ++ ·) a = a ++ l.foldl (· ++ ·) "" := by
  induction l with
  | nil => intro a; simp
  | cons x xs ih =>
    intro a
    simp only [List.foldl_cons]
    rw [ih (a ++ x), ih ("" ++ x), String.empty_append, String.append_assoc]

theorem join_cons (c : String) (cs : List String) :
    String.join (c :: cs) = c ++ String.join cs := by
  show List.foldl (· ++ ·) ("" ++ c) cs = c ++ List.foldl (· ++ ·) "" cs
  rw [String.empty_append]
  exact foldl_append_init cs c

theorem consumeStream_eq (chunks : List String) :
    ∀ acc : String, consumeStream chunks acc =
      (acc ++ String.join chunks,
        (chunks.filter fun c => !(c == "")).map JobEvent.chunk) := by
  induction chunks with
  | nil =>
    intro acc
    show (acc, ([] : List JobEvent)) = (acc ++ String.join [], _)
    rw [show String.join [] = "" from rfl, String.append_empty]
    rfl
  | cons c cs ih =>
    intro acc
    by_cases hc : c = ""
    · subst hc
      rw [show consumeStream ("" :: cs) acc = consumeStream cs acc from by
        simp [consumeStream]]
      rw [ih acc, join_cons, String.empty_append]
      simp
    · rw [show consumeStream (c :: cs) acc =
          ((consumeStream cs (acc ++ c)).1, .chunk c :: (consumeStream cs (acc ++ c)).2) from by
        simp [consumeStream, hc]]
      rw [ih (acc ++ c), join_cons]
      simp [List.filter_cons, hc, String.append_assoc]

theorem consumeStream_run (chunks : List String) :
    consumeStream chunks ("") =
      (String.join chunks, (chunks.filter fun c => !(c == "")).map JobEvent.chunk) := by
  rw [consumeStream_eq chunks (""), String.empty_append]

theorem processJobRun_eq (chunks : List String) :
    processJobRun chunks =
      (.success, ((chunks.filter fun c => !(c == "")).map JobEvent.chunk) ++
        [JobEvent.commitCall (String.join chunks)]) := by
  unfold processJobRun
  rw [consumeStream_run]

theorem randomSuffix_bounds (r : Nat) : 100 ≤ randomSuffix r ∧ randomSuffix r ≤ 999 := by
  unfold randomSuffix
  have := Nat.mod_lt r (show 0 < 900 by decide)
  omega

theorem getLast?_cons_of_getLast? {α : Type} (a : α) {l : List α} {c : α}
    (h : l.getLast? = some c) : (a :: l).getLast? = some c := by
  cases l with
  | nil => simp at h
  | cons x xs => rw [List.getLast?_cons_cons]; exact h

theorem createRepoGo_props (store : String → StoreResp) (entropy : Nat → Nat)
    (repoName : String) :
    ∀ (fuel : Nat) (cand : String) (draw : Nat),
      ((createRepoGo store entropy repoName fuel cand draw).2.length ≤ fuel) ∧
      (∀ c, (createRepoGo store entropy repoName fuel cand draw).1 = .created c →
          store c = .ok ∧
          (createRepoGo store entropy repoName fuel cand draw).2.getLast? = some c) ∧
      (∀ msg, (createRepoGo store entropy repoName fuel cand draw).1 = .exhausted msg →
          msg = exhaustedMessage repoName ∧
          (createRepoGo store entropy repoName fuel cand draw).2.length = fuel ∧
          ∀ c ∈ (createRepoGo store entropy repoName fuel cand draw).2,
            store c = .conflict422) ∧
      (∀ c ∈ (createRepoGo store entropy repoName fuel cand draw).2.dropLast,
          store c = .conflict422) ∧
      (∀ c ∈ (createRepoGo store entropy repoName fuel cand draw).2,
          c = cand ∨ ∃ rnum : Nat,
            c = stripNumericSuffix repoName ++ "-" ++ toString (randomSuffix rnum)) := by
  intro fuel
  induction fuel with
  | zero =>
    intro cand draw
    refine ⟨by simp [createRepoGo], ?_, ?_, ?_, ?_⟩
    · intro c hc; simp [createRepoGo] at hc
    · intro msg hmsg
      simp only [createRepoGo, CreateOutcome.exhausted.injEq] at hmsg
      exact ⟨hmsg.symm, by simp [createRepoGo], by simp [createRepoGo]⟩
    · intro c hc; simp [createRepoGo] at hc
    · intro c hc; simp [createRepoGo] at hc
  | succ fuel ih =>
    intro cand draw
    cases hst : store cand with
    | ok =>
      have hunf : createRepoGo store entropy repoName (fuel + 1) cand draw =
          (.created cand, [cand]) := by
        simp [createRepoGo, hst]
      refine ⟨by rw [hunf]; simp, ?_, ?_, ?_, ?_⟩
      · intro c hc
        rw [hunf] at hc
        simp only [CreateOutcome.created.injEq] at hc
        subst hc
        rw [hunf]
        exact ⟨hst, by simp⟩
      · intro msg hmsg; rw [hunf] at hmsg; simp at hmsg
      · intro c hc; rw [hunf] at hc; simp at hc
      · intro c hc
        rw [hunf] at hc
        simp only [List.mem_singleton] at hc
        exact Or.inl hc
    | failOther m =>
      have hunf : createRepoGo store entropy repoName (fuel + 1) cand draw =
          (.otherError m, [cand]) := by
        simp [createRepoGo, hst]
      refine ⟨by rw [hunf]; simp, ?_, ?_, ?_, ?_⟩
      · intro c hc; rw [hunf] at hc; simp at hc
      · intro msg hmsg; rw [hunf] at hmsg; simp at hmsg
      · intro c hc; rw [hunf] at hc; simp at hc
      · intro c hc
        rw [hunf] at hc
        simp only [List.mem_singleton] at hc
        exact Or.inl hc
    | conflict422 =>
      have hunf : createRepoGo store entropy repoName (fuel + 1) cand draw =
          ((createRepoGo store entropy repoName fuel
              (stripNumericSuffix repoName ++ "-" ++ toString (randomSuffix (entropy draw)))
              (draw + 1)).1,
            cand :: (createRepoGo store entropy repoName fuel
              (stripNumericSuffix repoName ++ "-" ++ toString (randomSuffix (entropy draw)))
              (draw + 1)).2) := by
        simp [createRepoGo, hst]
      obtain ⟨ihlen, ihcreated, ihexh, ihdrop, ihshape⟩ :=
        ih (stripNumericSuffix repoName ++ "-" ++ toString (randomSuffix (entropy draw)))
          (draw + 1)
      refine ⟨?_, ?_, ?_, ?_, ?_⟩
      · rw [hunf]
        simp only [List.length_cons]
        omega
      · intro c hc
        rw [hunf] at hc
        obtain ⟨hok, hlast⟩ := ihcreated c hc
        refine ⟨hok, ?_⟩
        rw [hunf]
        exact getLast?_cons_of_getLast? cand hlast
      · intro msg hmsg
        rw [hunf] at hmsg
        obtain ⟨hm, hlen, hall⟩ := ihexh msg hmsg
        refine ⟨hm, ?_, ?_⟩
        · rw [hunf]
          simp only [List.length_cons]
          omega
        · intro c hc
          rw [hunf] at hc
          rcases List.mem_cons.1 hc with hceq | hcm
          · subst hceq; exact hst
          · exact hall c hcm
      · intro c hc
        rw [hunf] at hc
        cases hrec : (createRepoGo store entropy repoName fuel
            (stripNumericSuffix repoName ++ "-" ++ toString (randomSuffix (entropy draw)))
            (draw + 1)).2 with
        | nil => rw [hrec] at hc; simp at hc
        | cons x xs =>
          rw [hrec] at hc
          rw [List.dropLast_cons₂] at hc
          rcases List.mem_cons.1 hc with hceq | hcm
          · subst hceq; exact hst
          · rw [hrec] at ihdrop
            exact ihdrop c hcm
      · intro c hc
        rw [hunf] at hc
        rcases List.mem_cons.1 hc with hceq | hcm
        · exact Or.inl hceq
        · rcases ihshape c hcm with hnext | hex
          · exact Or.inr ⟨entropy draw, hnext⟩
          · exact Or.inr hex

/-- C1: in both worker pools (the bulk/multi-file edit flow and the
handleGenerateProject flow), when the per-job operation of job A rejects
with a message while a worker holds A, the catch at the worker boundary
produces exactly the fail target state: job A becomes failed with the
causing message recorded, the worker returns to its loop (idle, still
pulling), and from there the batch can still run to completion with every
job, A included, in a terminal state and the failure of A still recorded. -/
theorem claim1_worker_failure_isolation :
    (∀ (n : Nat) (s : EState CONCURRENCY_LIMIT n) (w : Fin CONCURRENCY_LIMIT) (A : Fin n)
        (msg : String),
        EReach CONCURRENCY_LIMIT n s → s.workers w = .busy A →
        EStep CONCURRENCY_LIMIT n s (failTargetE s w A msg) ∧
        (failTargetE s w A msg).status A = .failed ∧
        (failTargetE s w A msg).errMsg A = some msg ∧
        (failTargetE s w A msg).workers w = .idle ∧
        ∃ u : EState CONCURRENCY_LIMIT n,
          ESteps CONCURRENCY_LIMIT n (failTargetE s w A msg) u ∧ allDoneE u ∧
          (∀ j : Fin n, (u.status j).isTerminal = true) ∧
          u.status A = .failed ∧ u.errMsg A = some msg) ∧
    (∀ (n : Nat) (s : GState CONCURRENCY_LIMIT n) (w : Fin CONCURRENCY_LIMIT) (A : Fin n)
        (msg : String),
        GReach CONCURRENCY_LIMIT n s → s.workers w = .busy A →
        GStep CONCURRENCY_LIMIT n s (failTargetG s w A msg) ∧
        (failTargetG s w A msg).status A = .failed ∧
        (failTargetG s w A msg).errMsg A = some msg ∧
        (failTargetG s w A msg).workers w = .idle ∧
        ∃ u : GState CONCURRENCY_LIMIT n,
          GSteps CONCURRENCY_LIMIT n (failTargetG s w A msg) u ∧ allDoneG u ∧
          (∀ j : Fin n, (u.status j).isTerminal = true) ∧
          u.status A = .failed ∧ u.errMsg A = some msg) := by
  constructor
  · intro n s w A msg hr hbusy
    have hstep : EStep CONCURRENCY_LIMIT n s (failTargetE s w A msg) :=
      EStep.finishFail s w A msg hbusy
    have hrt : EReach CONCURRENCY_LIMIT n (failTargetE s w A msg) := EReach.step hr hstep
    have hA : (failTargetE s w A msg).status A = .failed := Function.update_same A _ _
    have hAe : (failTargetE s w A msg).errMsg A = some msg := Function.update_same A _ _
    have hw : (failTargetE s w A msg).workers w = .idle := Function.update_same w _ _
    obtain ⟨u, hsteps, hdone⟩ := ecompletion _ hrt
    have hru : EReach CONCURRENCY_LIMIT n u := ereach_esteps hrt hsteps
    have hterm : ∀ j : Fin n, (u.status j).isTerminal = true :=
      fun j => edone_all_terminal (by decide) hru hdone j
    have hstab := esteps_terminal_stable hrt hsteps A (by rw [hA]; rfl)
    exact ⟨hstep, hA, hAe, hw, u, hsteps, hdone, hterm,
      hstab.1.trans hA, hstab.2.trans hAe⟩
  · intro n s w A msg hr hbusy
    have hstep : GStep CONCURRENCY_LIMIT n s (failTargetG s w A msg) :=
      GStep.finishFail s w A msg hbusy
    have hrt : GReach CONCURRENCY_LIMIT n (failTargetG s w A msg) := GReach.step hr hstep
    have hA : (failTargetG s w A msg).status A = .failed := Function.update_same A _ _
    have hAe : (failTargetG s w A msg).errMsg A = some msg := Function.update_same A _ _
    have hw : (failTargetG s w A msg).workers w = .idle := Function.update_same w _ _
    obtain ⟨u, hsteps, hdone⟩ := gcompletion _ hrt
    have hru : GReach CONCURRENCY_LIMIT n u := greach_gsteps hrt hsteps
    have hterm : ∀ j : Fin n, (u.status j).isTerminal = true :=
      fun j => gdone_all_terminal (by decide) hru hdone j
    have hstab := gsteps_terminal_stable hrt hsteps A (by rw [hA]; rfl)
    exact ⟨hstep, hA, hAe, hw, u, hsteps, hdone, hterm,
      hstab.1.trans hA, hstab.2.trans hAe⟩

/-- Witness for C1 at concrete one-job batches of both kinds whose job is
held by worker 0. -/
theorem claim1_witness :
    (c1DemoState.workers ⟨0, by decide⟩ = .busy ⟨0, by decide⟩ ∧
      (failTargetE c1DemoState ⟨0, by decide⟩ ⟨0, by decide⟩ "boom").status ⟨0, by decide⟩ =
        .failed ∧
      (failTargetE c1DemoState ⟨0, by decide⟩ ⟨0, by decide⟩ "boom").errMsg ⟨0, by decide⟩ =
        some ("boom")) ∧
    (gDemoState.workers ⟨0, by decide⟩ = .busy ⟨0, by decide⟩ ∧
      (failTargetG gDemoState ⟨0, by decide⟩ ⟨0, by decide⟩ "boom").status ⟨0, by decide⟩ =
        .failed ∧
      (failTargetG gDemoState ⟨0, by decide⟩ ⟨0, by decide⟩ "boom").errMsg ⟨0, by decide⟩ =
        some ("boom")) := by
  have hbusyE : c1DemoState.workers ⟨0, by decide⟩ = .busy ⟨0, by decide⟩ := by
    simp [c1DemoState]
  have hbusyG : gDemoState.workers ⟨0, by decide⟩ = .busy ⟨0, by decide⟩ := by
    simp [gDemoState]
  have hE := claim1_worker_failure_isolation.1 1 c1DemoState ⟨0, by decide⟩ ⟨0, by decide⟩
    "boom" c1DemoState_reach hbusyE
  have hG := claim1_worker_failure_isolation.2 1 gDemoState ⟨0, by decide⟩ ⟨0, by decide⟩
    "boom" gDemoState_reach hbusyG
  exact ⟨⟨hbusyE, hE.2.1, hE.2.2.1⟩, ⟨hbusyG, hG.2.1, hG.2.2.1⟩⟩

/-- C2: when the edit-flow scheduler resolves (all spawned workers have
returned), the queue is empty, every submitted job is in a terminal status,
the number of terminal jobs equals the number submitted, and the
batch-complete predicate of BulkEditProgress holds; that predicate says
exactly that no job remains queued or processing. -/
theorem claim2_completion_terminal :
    ∀ (n : Nat) (s : EState CONCURRENCY_LIMIT n),
      EReach CONCURRENCY_LIMIT n s → allDoneE s →
      eTerminalCount s = n ∧
      (∀ j : Fin n, (s.status j).isTerminal = true) ∧
      s.queue = [] ∧
      bulkIsComplete s = true ∧
      (∀ t : EState CONCURRENCY_LIMIT n, bulkIsComplete t = true →
          ∀ j : Fin n, t.status j ≠ .queued ∧ t.status j ≠ .processing) := by
  intro n s hr hd
  have hterm : ∀ j : Fin n, (s.status j).isTerminal = true :=
    fun j => edone_all_terminal (by decide) hr hd j
  have hqe : s.queue = [] :=
    (einv_reach hr).doneQueueEmpty ⟨0, by decide⟩ (hd ⟨0, by decide⟩)
  refine ⟨?_, hterm, hqe, ?_, ?_⟩
  · unfold eTerminalCount
    rw [Finset.filter_true_of_mem fun j _ => hterm j]
    simp
  · rw [bulkIsComplete_iff]
    intro j
    have hj := hterm j
    cases hst : s.status j <;> rw [hst] at hj <;>
      simp [EStatus.isTerminal] at hj ⊢
  · intro t ht j
    exact (bulkIsComplete_iff t).1 ht j

/-- Witness for C2 at a concrete completed one-job batch. -/
theorem claim2_witness :
    eTerminalCount c2FinalDemo = 1 ∧ bulkIsComplete c2FinalDemo = true := by
  have h := claim2_completion_terminal 1 c2FinalDemo c2FinalDemo_reach c2FinalDemo_done
  exact ⟨h.1, h.2.2.2.1⟩

/-- C3: in every reachable state of either worker pool, at most
CONCURRENCY_LIMIT jobs are simultaneously in flight: at most five
processing jobs in the edit flow, and at most five generating or
committing jobs in the generation flow, because each in-flight job is held
by a distinct one of the five workers. -/
theorem claim3_concurrency_bound :
    (∀ (n : Nat) (s : EState CONCURRENCY_LIMIT n),
        EReach CONCURRENCY_LIMIT n s → eProcessingCount s ≤ CONCURRENCY_LIMIT) ∧
    (∀ (n : Nat) (s : GState CONCURRENCY_LIMIT n),
        GReach CONCURRENCY_LIMIT n s → gInFlightCount s ≤ CONCURRENCY_LIMIT) :=
  ⟨fun _ _ hr => eprocessing_card_le hr, fun _ _ hr => ginflight_card_le hr⟩

/-- Witness for C3 at concrete one-job batches with one claimed job. -/
theorem claim3_witness :
    eProcessingCount c1DemoState ≤ CONCURRENCY_LIMIT ∧
    gInFlightCount gDemoState ≤ CONCURRENCY_LIMIT :=
  ⟨claim3_concurrency_bound.1 1 c1DemoState c1DemoState_reach,
    claim3_concurrency_bound.2 1 gDemoState gDemoState_reach⟩

/-- C4: in every reachable state of the edit-flow pool no two workers hold
the same job (the pop is atomic), and the set of claimed jobs is always the
first n minus queue-length jobs in submission order (claims are FIFO);
completion order is unconstrained: one batch of two jobs can reach a state
where job 0 finished first and another where job 1 finished first. -/
theorem claim4_atomic_fifo_claims :
    (∀ (n : Nat) (s : EState CONCURRENCY_LIMIT n), EReach CONCURRENCY_LIMIT n s →
        (∀ (w₁ w₂ : Fin CONCURRENCY_LIMIT) (j : Fin n),
            s.workers w₁ = .busy j → s.workers w₂ = .busy j → w₁ = w₂) ∧
        (∀ j : Fin n, s.status j ≠ .queued ↔ j.val < n - s.queue.length)) ∧
    (∃ s₁ s₂ : EState CONCURRENCY_LIMIT 2,
        EReach CONCURRENCY_LIMIT 2 s₁ ∧ EReach CONCURRENCY_LIMIT 2 s₂ ∧
        s₁.status ⟨0, by decide⟩ = .success ∧ s₁.status ⟨1, by decide⟩ = .processing ∧
        s₂.status ⟨0, by decide⟩ = .processing ∧ s₂.status ⟨1, by decide⟩ = .success) := by
  constructor
  · intro n s hr
    have inv := einv_reach hr
    refine ⟨inv.busyUnique, ?_⟩
    obtain ⟨k0, hk⟩ := inv.queueSuffix
    intro j
    have hqlen : s.queue.length = n - k0 := by
      rw [hk, List.length_drop, List.length_finRange]
    have hmem : j ∈ s.queue ↔ k0 ≤ j.val := by rw [hk]; exact mem_drop_finRange k0 j
    have hiff := inv.queuedIffInQueue j
    have hjn := j.isLt
    constructor
    · intro hne
      rw [hqlen]
      have hnotmem : ¬ (k0 ≤ j.val) := fun hle => hne (hiff.2 (hmem.2 hle))
      omega
    · intro hlt hq
      rw [hqlen] at hlt
      have hge : k0 ≤ j.val := hmem.1 (hiff.1 hq)
      omega
  · exact ⟨c4StateA, c4StateB, c4StateA_reach, c4StateB_reach, rfl, rfl, rfl, rfl⟩

/-- Witness for C4 at a concrete two-job batch with both jobs claimed and
job 0 finished. -/
theorem claim4_witness :
    (c4StateA.status ⟨0, by decide⟩ ≠ .queued ↔
      (0 : Nat) < 2 - c4StateA.queue.length) ∧
    (∃ s₁ s₂ : EState CONCURRENCY_LIMIT 2,
        EReach CONCURRENCY_LIMIT 2 s₁ ∧ EReach CONCURRENCY_LIMIT 2 s₂ ∧
        s₁.status ⟨0, by decide⟩ = .success ∧ s₁.status ⟨1, by decide⟩ = .processing ∧
        s₂.status ⟨0, by decide⟩ = .processing ∧ s₂.status ⟨1, by decide⟩ = .success) := by
  have h := claim4_atomic_fifo_claims
  exact ⟨(h.1 2 c4StateA c4StateA_reach).2 ⟨0, by decide⟩, h.2⟩

/-- C8: along every reachable step of either worker pool, every job status
moves monotonically forward through the state list of its kind and never
leaves a terminal state, and in every reachable state the error field is
non-null exactly when the status is failed. -/
theorem claim8_monotonic_status :
    (∀ (n : Nat) (s t : EState CONCURRENCY_LIMIT n),
        EReach CONCURRENCY_LIMIT n s → EStep CONCURRENCY_LIMIT n s t →
        (∀ j : Fin n, erank (s.status j) ≤ erank (t.status j)) ∧
        (∀ j : Fin n, (s.status j).isTerminal = true →
            t.status j = s.status j ∧ t.errMsg j = s.errMsg j)) ∧
    (∀ (n : Nat) (s : EState CONCURRENCY_LIMIT n), EReach CONCURRENCY_LIMIT n s →
        ∀ j : Fin n, (s.errMsg j).isSome ↔ s.status j = .failed) ∧
    (∀ (n : Nat) (s t : GState CONCURRENCY_LIMIT n),
        GReach CONCURRENCY_LIMIT n s → GStep CONCURRENCY_LIMIT n s t →
        (∀ j : Fin n, grank (s.status j) ≤ grank (t.status j)) ∧
        (∀ j : Fin n, (s.status j).isTerminal = true →
            t.status j = s.status j ∧ t.errMsg j = s.errMsg j)) ∧
    (∀ (n : Nat) (s : GState CONCURRENCY_LIMIT n), GReach CONCURRENCY_LIMIT n s →
        ∀ j : Fin n, (s.errMsg j).isSome ↔ s.status j = .failed) := by
  refine ⟨?_, ?_, ?_, ?_⟩
  · intro n s t hr hstep
    exact ⟨fun j => estep_rank_mono (einv_reach hr) hstep j,
      fun j hterm => estep_terminal_stable (einv_reach hr) hstep j hterm⟩
  · intro n s hr j
    exact (einv_reach hr).errIffFailed j
  · intro n s t hr hstep
    exact ⟨fun j => gstep_rank_mono (ginv_reach hr) hstep j,
      fun j hterm => gstep_terminal_stable (ginv_reach hr) hstep j hterm⟩
  · intro n s hr j
    exact (ginv_reach hr).errIffFailed j

/-- Witness for C8 at the first claim step of concrete one-job batches of
both kinds. -/
theorem claim8_witness :
    erank ((initES CONCURRENCY_LIMIT 1).status ⟨0, by decide⟩) ≤
      erank (c1DemoState.status ⟨0, by decide⟩) ∧
    (((initES CONCURRENCY_LIMIT 1).errMsg ⟨0, by decide⟩).isSome ↔
      (initES CONCURRENCY_LIMIT 1).status ⟨0, by decide⟩ = .failed) ∧
    grank ((initGS CONCURRENCY_LIMIT 1).status ⟨0, by decide⟩) ≤
      grank (gDemoState.status ⟨0, by decide⟩) := by
  have h := claim8_monotonic_status
  exact ⟨(h.1 1 _ _ EReach.init c1DemoStep).1 ⟨0, by decide⟩,
    h.2.1 1 _ EReach.init ⟨0, by decide⟩,
    (h.2.2.1 1 _ _ GReach.init gDemoStep).1 ⟨0, by decide⟩⟩

/-- C5 counterexample: in the bulk flow of src/App.tsx (processJob of
handleBulkAiSubmit), a job whose accumulated generated content equals the
pre-existing content after trimming (pre-existing content a, stream one
chunk a) is still committed and ends in success, not skipped: processJob
performs no comparison against the pre-existing content and no skip. -/
theorem claim5_counterexample :
    (consumeStream ["a"] "").1.trim = "a".trim ∧
    processJobRun ["a"] = (.success, [.chunk ("a"), .commitCall ("a")]) ∧
    EStatus.success ≠ EStatus.skipped ∧
    JobEvent.commitCall ("a") ∈ (processJobRun ["a"]).2 := by
  refine ⟨by rw [show (consumeStream ["a"] "").1 = "a" from by decide],
    by decide, by decide, by decide⟩

/-- C5 amended: in the multi-file edit flow (processFile of
handleMultiFileEditSubmit in src/components/FileExplorer.tsx) a job whose
accumulated content is empty after trimming or trim-equal to the
pre-existing content transitions to skipped and no commit call is issued;
in the bulk flow of src/App.tsx (processJob of handleBulkAiSubmit) no such
check exists: every job that exhausts its stream commits the accumulated
content and transitions to success. -/
theorem claim5_amended :
    (∀ (originalContent : String) (chunks : List String),
        ((consumeStream chunks ("")).1.trim = originalContent.trim ∨
          (consumeStream chunks ("")).1.trim = "") →
        (processFileRun originalContent chunks).1 = .skipped ∧
        ∀ content, JobEvent.commitCall content ∉ (processFileRun originalContent chunks).2) ∧
    (∀ chunks : List String,
        (processJobRun chunks).1 = .success ∧
        JobEvent.commitCall (String.join chunks) ∈ (processJobRun chunks).2) := by
  constructor
  · intro originalContent chunks hskip
    have hrun : processFileRun originalContent chunks =
        (.skipped, (consumeStream chunks ("")).2) := by
      unfold processFileRun
      rw [if_pos hskip]
    refine ⟨by rw [hrun], ?_⟩
    intro content hmem
    rw [hrun] at hmem
    dsimp only at hmem
    rw [consumeStream_run] at hmem
    dsimp only at hmem
    obtain ⟨c, _, hcc⟩ := List.mem_map.1 hmem
    simp at hcc
  · intro chunks
    have he := processJobRun_eq chunks
    refine ⟨by rw [he], ?_⟩
    rw [he]
    dsimp only
    exact List.mem_append.2 (Or.inr (List.mem_singleton.2 rfl))

/-- Witness for the amended C5 at pre-existing content a with stream a. -/
theorem claim5_witness :
    ((consumeStream ["a"] "").1.trim = "a".trim ∨ (consumeStream ["a"] "").1.trim = "") ∧
    (processFileRun ("a") ["a"]).1 = .skipped := by
  have hskip : (consumeStream ["a"] "").1.trim = "a".trim ∨
      (consumeStream ["a"] "").1.trim = "" :=
    Or.inl (by rw [show (consumeStream ["a"] "").1 = "a" from by decide])
  exact ⟨hskip, (claim5_amended.1 ("a") ["a"] hskip).1⟩

/-- C6 counterexample: with a store that always answers 422 and suffix draws
100, 101, 102, 103, the retry loop for the requested name demo attempts
exactly the five candidates demo, demo-100, demo-101, demo-102, demo-103 and
then fails; the failure message interpolates the originally requested name
demo and does not name the last attempted candidate demo-103, contradicting
the claim that the error names the last attempted candidate. -/
theorem claim6_counterexample :
    (createRepoWithRetry (fun _ => .conflict422) (fun i => i) "demo").1 =
      .exhausted (exhaustedMessage ("demo")) ∧
    (createRepoWithRetry (fun _ => .conflict422) (fun i => i) "demo").2 =
      ["demo", "demo-100", "demo-101", "demo-102", "demo-103"] ∧
    mentions (exhaustedMessage ("demo")) "demo-103" = false ∧
    mentions (exhaustedMessage ("demo")) "demo" = true := by
  refine ⟨by decide, by decide, by decide, by decide⟩

/-- C6 amended: the writer retries on 422 collisions, deriving each new
candidate by stripping any numeric suffix from the originally requested
name and appending a dash and a random 3-digit suffix (in 100..999), up to
5 attempts; a non-colliding candidate succeeds on the first available
attempt (all earlier attempts collided); after 5 colliding attempts it
fails with the error message naming the ORIGINALLY REQUESTED name, not the
last attempted candidate. -/
theorem claim6_amended :
    (∀ (store : String → StoreResp) (entropy : Nat → Nat) (repoName c : String),
        (createRepoWithRetry store entropy repoName).1 = .created c →
        store c = .ok ∧
        (createRepoWithRetry store entropy repoName).2.getLast? = some c ∧
        ∀ d ∈ (createRepoWithRetry store entropy repoName).2.dropLast,
          store d = .conflict422) ∧
    (∀ (store : String → StoreResp) (entropy : Nat → Nat) (repoName msg : String),
        (createRepoWithRetry store entropy repoName).1 = .exhausted msg →
        msg = exhaustedMessage repoName ∧
        (createRepoWithRetry store entropy repoName).2.length = maxAttempts ∧
        ∀ d ∈ (createRepoWithRetry store entropy repoName).2, store d = .conflict422) ∧
    (∀ (store : String → StoreResp) (entropy : Nat → Nat) (repoName : String),
        (createRepoWithRetry store entropy repoName).2.length ≤ maxAttempts ∧
        ∀ d ∈ (createRepoWithRetry store entropy repoName).2,
          d = repoName ∨ ∃ rnum : Nat,
            d = stripNumericSuffix repoName ++ "-" ++ toString (randomSuffix rnum)) ∧
    (∀ rnum : Nat, 100 ≤ randomSuffix rnum ∧ randomSuffix rnum ≤ 999) := by
  refine ⟨?_, ?_, ?_, randomSuffix_bounds⟩
  · intro store entropy repoName c hc
    obtain ⟨hlen, hcreated, hexh, hdrop, hshape⟩ :=
      createRepoGo_props store entropy repoName maxAttempts repoName 0
    obtain ⟨hok, hlast⟩ := hcreated c hc
    exact ⟨hok, hlast, hdrop⟩
  · intro store entropy repoName msg hmsg
    obtain ⟨hlen, hcreated, hexh, hdrop, hshape⟩ :=
      createRepoGo_props store entropy repoName maxAttempts repoName 0
    exact hexh msg hmsg
  · intro store entropy repoName
    obtain ⟨hlen, hcreated, hexh, hdrop, hshape⟩ :=
      createRepoGo_props store entropy repoName maxAttempts repoName 0
    exact ⟨hlen, hshape⟩

/-- Witness for the amended C6: a store that rejects only the name demo;
creation retries once and succeeds on the first available candidate
demo-100. -/
theorem claim6_witness :
    (createRepoWithRetry (fun c => if c = "demo" then .conflict422 else .ok)
        (fun i => i) "demo").1 = .created ("demo-100") ∧
    (if ("demo-100" : String) = "demo" then StoreResp.conflict422 else .ok) = .ok ∧
    (createRepoWithRetry (fun c => if c = "demo" then .conflict422 else .ok)
        (fun i => i) "demo").2.getLast? = some ("demo-100") := by
  have hc : (createRepoWithRetry (fun c => if c = "demo" then StoreResp.conflict422 else .ok)
      (fun i => i) "demo").1 = .created ("demo-100") := by decide
  have h := claim6_amended.1 (fun c => if c = "demo" then .conflict422 else .ok)
    (fun i => i) ("demo") ("demo-100") hc
  exact ⟨hc, h.1, h.2.1⟩

/-- C7 counterexample: submitting with an empty selection is silently
ignored by the guard of handleBulkAiSubmit; no ValidationError is raised
(the outcome is not a validation error), contradicting the claim that an
empty target list fails with a ValidationError. -/
theorem claim7_counterexample :
    handleBulkAiSubmitStart true [] = .ignored ∧
    (handleBulkAiSubmitStart true []).isValidationError = false ∧
    mkBulkJobs [] = [] := by
  exact ⟨rfl, rfl, rfl⟩

/-- C7 amended: for every non-empty selection (with a token present) the
submission starts a batch with exactly one job per selected target, each
with the target as its id and path, initially queued with no error; an
empty selection is silently ignored: no job is created and no error of any
kind is raised. -/
theorem claim7_amended :
    (∀ sel : List String, sel ≠ [] →
        handleBulkAiSubmitStart true sel = .started (mkBulkJobs sel) ∧
        (mkBulkJobs sel).length = sel.length ∧
        (mkBulkJobs sel).map BulkEditJob.id = sel ∧
        ∀ job ∈ mkBulkJobs sel,
          job.status = .queued ∧ job.errMsg = none ∧ job.id = job.path) ∧
    (∀ tokenPresent : Bool,
        handleBulkAiSubmitStart tokenPresent [] = .ignored ∧
        (handleBulkAiSubmitStart tokenPresent []).isValidationError = false) := by
  constructor
  · intro sel hne
    have hni : sel.isEmpty = false := by
      cases sel with
      | nil => exact absurd rfl hne
      | cons a l => rfl
    refine ⟨?_, by simp [mkBulkJobs], ?_, ?_⟩
    · simp [handleBulkAiSubmitStart, hni]
    · unfold mkBulkJobs
      rw [List.map_map]
      have hcomp : (BulkEditJob.id ∘ fun fullPath =>
          ({ id := fullPath, path := fullPath, status := .queued, content := "",
             errMsg := none } : BulkEditJob)) = id := funext fun _ => rfl
      rw [hcomp, List.map_id]
    · intro job hjob
      obtain ⟨p, hp, heq⟩ := List.mem_map.1 hjob
      subst heq
      exact ⟨rfl, rfl, rfl⟩
  · intro tokenPresent
    cases tokenPresent with
    | false => exact ⟨rfl, rfl⟩
    | true => exact ⟨rfl, rfl⟩

/-- Witness for the amended C7 at a one-file selection. -/
theorem claim7_witness :
    (["owner/repo::src/a.ts"] ≠ ([] : List String)) ∧
    handleBulkAiSubmitStart true ["owner/repo::src/a.ts"] =
      .started (mkBulkJobs ["owner/repo::src/a.ts"]) := by
  have hne : (["owner/repo::src/a.ts"] : List String) ≠ [] := by simp
  exact ⟨hne, (claim7_amended.1 ["owner/repo::src/a.ts"] hne).1⟩

/-- C9: for every job of the bulk flow, the stream is consumed to
exhaustion and accumulated in arrival order, the single commit call is the
last event (strictly after every chunk event), and the committed value is
the fully-accumulated content (the ordered concatenation of all chunks). -/
theorem claim9_generate_before_commit :
    ∀ chunks : List String,
      processJobRun chunks =
        (.success, ((chunks.filter fun c => !(c == "")).map JobEvent.chunk) ++
          [JobEvent.commitCall (String.join chunks)]) ∧
      (processJobRun chunks).2.getLast? = some (JobEvent.commitCall (String.join chunks)) ∧
      (∀ content, JobEvent.commitCall content ∈ (processJobRun chunks).2 →
          content = String.join chunks) ∧
      (∀ e ∈ (processJobRun chunks).2.dropLast, ∃ c, e = JobEvent.chunk c) := by
  intro chunks
  have he := processJobRun_eq chunks
  refine ⟨he, ?_, ?_, ?_⟩
  · rw [he]; exact List.getLast?_concat _
  · intro content hmem
    rw [he] at hmem
    dsimp only at hmem
    rcases List.mem_append.1 hmem with hm | hm
    · obtain ⟨c, _, hcc⟩ := List.mem_map.1 hm
      simp at hcc
    · exact JobEvent.commitCall.inj (List.mem_singleton.1 hm)
  · intro e he2
    rw [he] at he2
    dsimp only at he2
    rw [List.dropLast_concat] at he2
    obtain ⟨c, _, hcc⟩ := List.mem_map.1 he2
    exact ⟨c, hcc.symm⟩

/-- Witness for C9 at the concrete stream a, empty, b: the empty chunk is
skipped by the callback guard, the commit is last, carrying ab. -/
theorem claim9_witness :
    processJobRun ["a", "", "b"] =
      (.success, [.chunk ("a"), .chunk ("b"), .commitCall ("ab")]) ∧
    (processJobRun ["a", "", "b"]).2.getLast? = some (.commitCall ("ab")) := by
  have h := claim9_generate_before_commit ["a", "", "b"]
  exact ⟨h.1.trans (by decide), h.2.1.trans (by decide)⟩

/-- C10: every job created by handleGenerateProject comes from the filtered
plan: its normalised path (lower-cased, then trimmed) is neither readme.md
nor .gitignore, and it starts queued with no error, even when the plan
contains such entries. -/
theorem claim10_plan_filter :
    ∀ (planFiles : List PlanFile) (job : ProjectGenerationJob),
      job ∈ handleGenerateProjectInitialJobs planFiles →
      normalizePlanPath job.path ≠ "readme.md" ∧
      normalizePlanPath job.path ≠ ".gitignore" ∧
      job.status = .queued ∧ job.errMsg = none := by
  intro planFiles job hmem
  unfold handleGenerateProjectInitialJobs mkProjectJobs at hmem
  obtain ⟨file, hfile, heq⟩ := List.mem_map.1 hmem
  unfold filesToGenerate at hfile
  obtain ⟨hmem2, hcond⟩ := List.mem_filter.1 hfile
  subst heq
  simp only [Bool.and_eq_true, Bool.not_eq_true', beq_eq_false_iff_ne, ne_eq] at hcond
  exact ⟨hcond.1, hcond.2, rfl, rfl⟩

/-- Witness for C10 at a plan containing README.md: the surviving job for
src/index.ts is created and its path is not filtered, while no job exists
for the readme entry. -/
theorem claim10_witness :
    (⟨"src/index.ts", "src/index.ts", "entry point", .queued, "", none⟩ :
        ProjectGenerationJob) ∈
      handleGenerateProjectInitialJobs
        [⟨"README.md", "docs"⟩, ⟨"src/index.ts", "entry point"⟩] ∧
    normalizePlanPath ("src/index.ts") ≠ "readme.md" ∧
    handleGenerateProjectInitialJobs
        [⟨"README.md", "docs"⟩, ⟨"src/index.ts", "entry point"⟩] =
      [⟨"src/index.ts", "src/index.ts", "entry point", .queued, "", none⟩] := by
  have hmem : (⟨"src/index.ts", "src/index.ts", "entry point", .queued, "", none⟩ :
      ProjectGenerationJob) ∈
      handleGenerateProjectInitialJobs
        [⟨"README.md", "docs"⟩, ⟨"src/index.ts", "entry point"⟩] := by decide
  have h := claim10_plan_filter
    [⟨"README.md", "docs"⟩, ⟨"src/index.ts", "entry point"⟩]
    ⟨"src/index.ts", "src/index.ts", "entry point", .queued, "", none⟩ hmem
  exact ⟨hmem, h.1, by decide⟩

end GGA
